import Mathlib

/-
Verification development for the hitokoto plugin's stateful runtime layer:
the per-category LRU+TTL sentence cache (cache.py), the favorites store and
its delete-confirmation state machine (__init__.py, models.py,
handlers/favorites.py), the persistence gateway (save/load of favorites and
cache snapshots), and the rate limiter.  Python floats for wall-clock time
are modelled as integers (only comparisons and subtraction are used);
Python dicts and OrderedDicts are modelled as association lists in
insertion order; Python sets are modelled as duplicate-free lists with an
arbitrary-but-fixed enumeration order.
-/

namespace Spec2Proof

/-- Association-list lookup, modelling Python dict access. -/
def alGet {κ α : Type} [DecidableEq κ] : List (κ × α) → κ → Option α
  | [], _ => none
  | p :: rest, k => if p.1 = k then some p.2 else alGet rest k

/-- Association-list update: Python dict assignment keeps the position of an
existing key and appends a fresh key at the end. -/
def alSet {κ α : Type} [DecidableEq κ] : List (κ × α) → κ → α → List (κ × α)
  | [], k, v => [(k, v)]
  | p :: rest, k, v => if p.1 = k then (k, v) :: rest else p :: alSet rest k v

/-- Association-list deletion, modelling Python `del d[k]`. -/
def alErase {κ α : Type} [DecidableEq κ] (l : List (κ × α)) (k : κ) : List (κ × α) :=
  l.filter (fun p => p.1 ≠ k)

/-- Last `n` elements of a list, modelling the Python slice `l[-n:]`. -/
def lastK {α : Type} (n : Nat) (l : List α) : List α :=
  l.drop (l.length - n)

/-- Sentence model from api.py (`HitokotoSentence`, pydantic). -/
structure HitokotoSentence where
  id : Int
  uuid : String
  hitokoto : String
  type : String
  from_ : String
  from_who : Option String
  creator : String
  creator_uid : Int
  reviewer : Int
  commit_from : String
  created_at : String
  length : Int
deriving DecidableEq, Repr

/-- One cache slot from cache.py: `{"data": sentence.dict(), "timestamp": time.time()}`. -/
structure CacheItem where
  data : HitokotoSentence
  timestamp : Int
deriving DecidableEq, Repr

/-- The `LRUCache` class of cache.py.  `cache` models the OrderedDict with
the front of the list as the oldest (first-popped) entry. -/
structure LRUCache where
  capacity : Nat
  cache : List (String × CacheItem)
deriving DecidableEq, Repr

/-- cache.py `LRUCache.put`: refresh an existing key to the most-recent
position (Python `move_to_end` plus in-place assignment is erase-then-append),
then pop the oldest entry if the capacity is exceeded. -/
def LRUCache.put (c : LRUCache) (k : String) (v : CacheItem) : LRUCache :=
  let updated := (c.cache.filter (fun p => p.1 ≠ k)) ++ [(k, v)]
  { c with cache := if updated.length > c.capacity then updated.tail else updated }

/-- cache.py `LRUCache.clear`. -/
def LRUCache.clear (c : LRUCache) : LRUCache :=
  { c with cache := [] }

/-- The `stats` dict of `HitokotoCache`. -/
structure CacheStats where
  hits : Nat
  misses : Nat
  last_cleanup : Int
deriving DecidableEq, Repr

/-- The `HitokotoCache` manager state from cache.py. -/
structure HitokotoCache where
  max_size : Nat
  ttl : Int
  type_cache : List (String × LRUCache)
  recently_used : List (String × List String)
  stats : CacheStats
deriving DecidableEq, Repr

/-- A fresh `HitokotoCache(max_size, ttl)`. -/
def HitokotoCache.init (max_size : Nat) (ttl : Int) : HitokotoCache :=
  { max_size := max_size, ttl := ttl, type_cache := [], recently_used := [],
    stats := { hits := 0, misses := 0, last_cleanup := 0 } }

/-- cache.py line 80: `type_key = sentence_type or sentence.type or "default"`.
Python `or` skips `None` and the empty string. -/
def typeKeyForAdd (sentence_type : Option String) (s : HitokotoSentence) : String :=
  match sentence_type with
  | some t => if t = "" then (if s.type = "" then "default" else s.type) else t
  | none => if s.type = "" then "default" else s.type

/-- cache.py line 105: `type_key = sentence_type or "default"`. -/
def typeKeyOrDefault (sentence_type : Option String) : String :=
  match sentence_type with
  | some t => if t = "" then "default" else t
  | none => "default"

/-- cache.py `HitokotoCache.add`: ensure the per-type `LRUCache` and
recently-used set exist, then put the item keyed by `str(sentence.id)`. -/
def HitokotoCache.add (c : HitokotoCache) (s : HitokotoSentence)
    (sentence_type : Option String) (now : Int) : HitokotoCache :=
  let type_key := typeKeyForAdd sentence_type s
  let tc := match alGet c.type_cache type_key with
    | some _ => c.type_cache
    | none => alSet c.type_cache type_key { capacity := c.max_size, cache := [] }
  let ru := match alGet c.type_cache type_key with
    | some _ => c.recently_used
    | none => alSet c.recently_used type_key []
  let bucket := (alGet tc type_key).getD { capacity := c.max_size, cache := [] }
  let bucket := bucket.put (toString s.id) { data := s, timestamp := now }
  { c with type_cache := alSet tc type_key bucket, recently_used := ru }

/-- cache.py lines 119-122: the non-expired items of a bucket, in cache
order (`current_time - item["timestamp"] < self.ttl`). -/
def validOf (ttl now : Int) (b : LRUCache) : List CacheItem :=
  (b.cache.map Prod.snd).filter (fun item => now - item.timestamp < ttl)

/-- cache.py lines 133-136: the valid items whose id is not in the
recently-used set. -/
def unusedOf (ru : List String) (valid : List CacheItem) : List CacheItem :=
  valid.filter (fun item => decide (toString item.data.id ∉ ru))

/-- Increment of the miss counter. -/
def HitokotoCache.bumpMiss (c : HitokotoCache) : HitokotoCache :=
  { c with stats := { c.stats with misses := c.stats.misses + 1 } }

/-- cache.py `HitokotoCache.get_random`.  `random.choice` is modelled by the
oracle argument `pick`: the chosen element is `eligible[pick % len]`.  The
`none` branch of the final match is unreachable because `eligible` is
nonempty there (choice from an empty list would raise in Python). -/
def HitokotoCache.get_random (c : HitokotoCache) (sentence_type : Option String)
    (now : Int) (pick : Nat) : Option HitokotoSentence × HitokotoCache :=
  let type_key := typeKeyOrDefault sentence_type
  match alGet c.type_cache type_key with
  | none => (none, c.bumpMiss)
  | some lru =>
    let valid := validOf c.ttl now lru
    if valid.isEmpty then (none, c.bumpMiss)
    else
      let ru0 := (alGet c.recently_used type_key).getD []
      let unused := unusedOf ru0 valid
      let eligible := if unused.isEmpty then valid else unused
      let ru1 := if unused.isEmpty then [] else ru0
      match eligible[pick % eligible.length]? with
      | none => (none, c.bumpMiss)
      | some chosen =>
        let sid := toString chosen.data.id
        let ru2 := if sid ∈ ru1 then ru1 else ru1 ++ [sid]
        let ru3 := if ru2.length > min (c.max_size / 2) 20 then lastK 10 ru2 else ru2
        (some chosen.data,
          { c with recently_used := alSet c.recently_used type_key ru3,
                   stats := { c.stats with hits := c.stats.hits + 1 } })

/-- Derived observation on a cache state: a `get_random` call at this state
would clear the recently-surfaced set (cache.py lines 140-143), i.e. the
bucket exists, has valid entries, and every valid entry is recently used. -/
def HitokotoCache.wouldReset (c : HitokotoCache) (sentence_type : Option String)
    (now : Int) : Bool :=
  let type_key := typeKeyOrDefault sentence_type
  match alGet c.type_cache type_key with
  | none => false
  | some lru =>
    let valid := validOf c.ttl now lru
    !valid.isEmpty && (unusedOf ((alGet c.recently_used type_key).getD []) valid).isEmpty

/-- cache.py `HitokotoCache.cleanup`: drop expired items from every bucket,
drop buckets left empty together with their recently-used sets, and stamp
`last_cleanup`. -/
def HitokotoCache.cleanup (c : HitokotoCache) (now : Int) : HitokotoCache :=
  let step := fun (acc : List (String × LRUCache) × List (String × List String))
      (p : String × LRUCache) =>
    let kept := p.2.cache.filter (fun q => !decide (now - q.2.timestamp ≥ c.ttl))
    if kept.isEmpty then (acc.1, alErase acc.2 p.1)
    else (acc.1 ++ [(p.1, { p.2 with cache := kept })], acc.2)
  let res := c.type_cache.foldl step ([], c.recently_used)
  { c with type_cache := res.1, recently_used := res.2,
           stats := { c.stats with last_cleanup := now } }

/-- One per-type block of the cache snapshot file (cache.py lines 244-250). -/
structure TypeData where
  cache : List (String × CacheItem)
  recently_used : List String
deriving DecidableEq, Repr

/-- The JSON document written by `save_to_file` / read by `load_from_file`. -/
structure CacheSaveFile where
  type_cache : List (String × TypeData)
  stats : CacheStats
deriving DecidableEq, Repr

/-- cache.py `HitokotoCache.save_to_file`: the serialized snapshot value. -/
def HitokotoCache.save_to_file (c : HitokotoCache) : CacheSaveFile :=
  { type_cache := c.type_cache.map (fun p =>
      (p.1, { cache := p.2.cache,
              recently_used := (alGet c.recently_used p.1).getD [] })),
    stats := c.stats }

/-- cache.py `HitokotoCache.load_from_file` on a well-formed snapshot:
`type_cache` is rebuilt from scratch with buckets of capacity `max_size`
whose contents are copied verbatim (no trimming), while `recently_used`
keys are assigned per loaded type on top of the existing dict. -/
def HitokotoCache.load_from_file (c : HitokotoCache) (data : CacheSaveFile) : HitokotoCache :=
  let tc := data.type_cache.map (fun p =>
    (p.1, { capacity := c.max_size, cache := p.2.cache : LRUCache }))
  let ru := data.type_cache.foldl (fun acc p => alSet acc p.1 p.2.recently_used)
    c.recently_used
  { c with type_cache := tc, recently_used := ru, stats := data.stats }

namespace Plugin

/-- One `last_sentences[user_id]` record of the plugin module
(`{"sentence": dict, "timestamp": time.time()}`). -/
structure LastSentence where
  sentence : HitokotoSentence
  timestamp : Int
deriving DecidableEq, Repr

/-- Global mutable favorites state of the plugin module (__init__.py):
`user_favorites`, `last_sentences`, `pending_deletes` (index plus request
timestamp). -/
structure FavState where
  user_favorites : List (String × List HitokotoSentence)
  last_sentences : List (String × LastSentence)
  pending_deletes : List (String × (Int × Int))
deriving DecidableEq, Repr

/-- __init__.py line 94: `DELETE_CONFIRM_TIMEOUT = 60`. -/
def DELETE_CONFIRM_TIMEOUT : Int := 60

/-- Outcome of `handle_add_favorite`, one constructor per reply message. -/
inductive AddFavResult where
  | noSentence
  | favTimeout
  | alreadyFavorited
  | quotaExceeded
  | success
deriving DecidableEq, Repr

/-- __init__.py `handle_add_favorite` as a pure transition: the reply
outcome, the new state, and whether `save_favorites` was invoked.  The
`"timestamp" not in last_data` legacy branch is unreachable in the typed
model because every stored record carries a timestamp. -/
def handle_add_favorite (favorite_timeout : Int) (max_favorites_per_user : Nat)
    (st : FavState) (user : String) (now : Int) : AddFavResult × FavState × Bool :=
  match alGet st.last_sentences user with
  | none => (.noSentence, st, false)
  | some last =>
    if now - last.timestamp > favorite_timeout then (.favTimeout, st, false)
    else
      let favs := (alGet st.user_favorites user).getD []
      let st1 : FavState := { st with user_favorites :=
        (match alGet st.user_favorites user with
         | some _ => st.user_favorites
         | none => alSet st.user_favorites user []) }
      if favs.any (fun fav => fav.id = last.sentence.id) then (.alreadyFavorited, st1, false)
      else if favs.length ≥ max_favorites_per_user then (.quotaExceeded, st1, false)
      else
        (.success,
         { st1 with user_favorites := alSet st1.user_favorites user (favs ++ [last.sentence]) },
         true)

/-- Outcome of a favorites-list request, one constructor per reply shape. -/
inductive ListFavResult where
  | noFavorites
  | invalidPage (total_pages : Nat)
  | pageView (page : Nat) (total_pages : Nat) (items : List HitokotoSentence)
deriving DecidableEq, Repr

/-- __init__.py `handle_list_favorites`: an explicit page outside
`[1, total_pages]` is rejected; a missing page argument defaults to 1. -/
def handle_list_favorites (favorites_per_page : Nat) (st : FavState)
    (user : String) (pageArg : Option Int) : ListFavResult :=
  match alGet st.user_favorites user with
  | none => .noFavorites
  | some favs =>
    if favs.isEmpty then .noFavorites
    else
      let total_pages := (favs.length + favorites_per_page - 1) / favorites_per_page
      if pageArg.isSome ∧ (pageArg.getD 1 ≤ 0 ∨ pageArg.getD 1 > (total_pages : Int)) then
        .invalidPage total_pages
      else
        let page := (pageArg.getD 1).toNat
        let start_idx := (page - 1) * favorites_per_page
        let end_idx := min (start_idx + favorites_per_page) favs.length
        .pageView page total_pages ((favs.take end_idx).drop start_idx)

/-- Outcome of `handle_delete_favorite`, one constructor per reply. -/
inductive DelFavResult where
  | noFavorites
  | invalidIndex (count : Nat)
  | deleted (s : HitokotoSentence)
  | confirmRequest (index : Int) (s : HitokotoSentence)
deriving DecidableEq, Repr

/-- __init__.py `handle_delete_favorite` as a pure transition: the reply,
the new state, and whether `save_favorites` was invoked.  Order of checks
follows the source: empty list, then index range, then the pending-delete
state machine (expired pending entries are discarded and fall through to
creating a fresh pending entry). -/
def handle_delete_favorite (st : FavState) (user : String) (index : Int)
    (now : Int) : DelFavResult × FavState × Bool :=
  let favs := (alGet st.user_favorites user).getD []
  if favs.isEmpty then (.noFavorites, st, false)
  else if index ≤ 0 ∨ index > (favs.length : Int) then (.invalidIndex favs.length, st, false)
  else
    let freshPending := fun (s : FavState) =>
      match favs[(index - 1).toNat]? with
      | some target =>
        (DelFavResult.confirmRequest index target,
         { s with pending_deletes := alSet s.pending_deletes user (index, now) }, false)
      | none => (DelFavResult.invalidIndex favs.length, s, false)
    match alGet st.pending_deletes user with
    | none => freshPending st
    | some pending =>
      if now - pending.2 > DELETE_CONFIRM_TIMEOUT then
        freshPending { st with pending_deletes := alErase st.pending_deletes user }
      else if pending.1 = index then
        match favs[(index - 1).toNat]? with
        | some removed =>
          (DelFavResult.deleted removed,
           { st with
              user_favorites := alSet st.user_favorites user (favs.eraseIdx (index - 1).toNat),
              pending_deletes := alErase st.pending_deletes user }, true)
        | none => (DelFavResult.invalidIndex favs.length, st, false)
      else
        freshPending st

end Plugin

namespace Models

/-- models.py `HitokotoFavorite`; `created_at` (a datetime) is modelled as
an integer timestamp. -/
structure HitokotoFavorite where
  content : String
  uuid : String
  type_name : String
  source : String
  creator : String
  created_at : Int
deriving DecidableEq, Repr

end Models

/-- Contents of a durable file: a plugin-module favorites map, a
models-layer favorites map, a cache snapshot, or bytes that fail to parse
as the expected document. -/
inductive Blob where
  | fav (d : List (String × List HitokotoSentence))
  | mfav (d : List (String × List Models.HitokotoFavorite))
  | cacheSnap (d : CacheSaveFile)
  | corrupt
deriving DecidableEq, Repr

/-- The file-system effects performed by the persistence code: `open(p,"w")`
plus `json.dump`, `os.replace`, `os.remove`. -/
inductive FsOp where
  | write (path : String) (b : Blob)
  | replace (src dst : String)
  | remove (path : String)
deriving DecidableEq, Repr

/-- Durable storage: a map from path to file contents. -/
abbrev FS := List (String × Blob)

/-- Effect of one file-system operation.  `os.replace` with a missing
source would raise in Python; it never does on the traces modelled here,
and is modelled as a no-op. -/
def applyOp (fs : FS) : FsOp → FS
  | .write p b => alSet fs p b
  | .replace src dst =>
    (match alGet fs src with
     | some b => alSet (alErase fs src) dst b
     | none => fs)
  | .remove p => alErase fs p

/-- Effect of a sequence of file-system operations. -/
def applyOps (fs : FS) (ops : List FsOp) : FS :=
  ops.foldl applyOp fs

/-- Paths used by __init__.py for the favorites store. -/
def favLive : String := "favorites.json"

/-- Temporary-file path of the favorites store. -/
def favTmp : String := "favorites.json.tmp"

/-- Backup path of the favorites store. -/
def favBak : String := "favorites.json.bak"

/-- Live path of the cache snapshot (cache.json under the data dir). -/
def cacheLive : String := "cache.json"

/-- Live path of the models-layer favorites file (localstore directory). -/
def modelsFavLive : String := "localstore/favorites.json"

namespace Plugin

/-- __init__.py `save_favorites` on the happy path: write the temp file,
rename any existing live file to the backup path, rename the temp file to
the live path, then delete the backup if present.  Returns the resulting
file system and the trace of operations performed. -/
def save_favorites_run (fs : FS) (d : List (String × List HitokotoSentence)) :
    FS × List FsOp :=
  let ops1 : List FsOp := [.write favTmp (.fav d)]
  let fs1 := applyOps fs ops1
  let ops2 : List FsOp := if (alGet fs1 favLive).isSome then [.replace favLive favBak] else []
  let fs2 := applyOps fs1 ops2
  let ops3 : List FsOp := [.replace favTmp favLive]
  let fs3 := applyOps fs2 ops3
  let ops4 : List FsOp := if (alGet fs3 favBak).isSome then [.remove favBak] else []
  (applyOps fs3 ops4, ops1 ++ ops2 ++ ops3 ++ ops4)

/-- A blob parses as the favorites document only when it is one. -/
def parseFav : Blob → Option (List (String × List HitokotoSentence))
  | .fav d => some d
  | _ => none

/-- __init__.py `load_favorites`: try the live file; when it exists but
fails to parse, try the backup and promote it to the live path on success;
in every other situation start from the empty map.  Total by construction,
modelling that the function never raises to the caller. -/
def load_favorites_run (fs : FS) : List (String × List HitokotoSentence) × FS :=
  match alGet fs favLive with
  | some b =>
    (match parseFav b with
     | some m => (m, fs)
     | none =>
       (match alGet fs favBak with
        | some b2 =>
          (match parseFav b2 with
           | some m2 => (m2, applyOp fs (.replace favBak favLive))
           | none => ([], fs))
        | none => ([], fs)))
  | none => ([], fs)

end Plugin

/-- cache.py `HitokotoCache.save_to_file` writes the snapshot directly to
the live path: a single in-place write, no temp file and no backup. -/
def cache_save_run (fs : FS) (snap : CacheSaveFile) : FS × List FsOp :=
  (applyOp fs (.write cacheLive (.cacheSnap snap)), [.write cacheLive (.cacheSnap snap)])

namespace Models

/-- models.py `FavoriteManager` in-memory state. -/
structure FavoriteManager where
  _favorites : List (String × List HitokotoFavorite)
  _last_hitokoto : List (String × HitokotoFavorite)
deriving DecidableEq, Repr

/-- models.py composite identity `f"{platform}:{user_id}"`. -/
def compositeId (platform user_id : String) : String :=
  platform ++ ":" ++ user_id

/-- models.py `FavoriteManager.add_favorite`: fails (returns `none`) only
when no last-fetched record exists or a record with the same UUID is
already present; otherwise appends and saves.  Returns the result, the new
state, and whether `_save_data` was invoked. -/
def FavoriteManager.add_favorite (st : FavoriteManager) (platform user_id : String) :
    Option HitokotoFavorite × FavoriteManager × Bool :=
  let cid := compositeId platform user_id
  match alGet st._last_hitokoto cid with
  | none => (none, st, false)
  | some favorite =>
    let favs := (alGet st._favorites cid).getD []
    let st1 : FavoriteManager := { st with _favorites :=
      (match alGet st._favorites cid with
       | some _ => st._favorites
       | none => alSet st._favorites cid []) }
    if favs.any (fun e => e.uuid = favorite.uuid) then (none, st1, false)
    else
      (some favorite,
       { st1 with _favorites := alSet st1._favorites cid (favs ++ [favorite]) },
       true)

/-- models.py `FavoriteManager._save_data`: one in-place write to the live
favorites file, no temp file and no backup. -/
def FavoriteManager.save_data_run (st : FavoriteManager) (fs : FS) : FS × List FsOp :=
  let blob := Blob.mfav st._favorites
  (applyOp fs (.write modelsFavLive blob), [.write modelsFavLive blob])

/-- models.py `FavoriteManager.get_favorites`. -/
def FavoriteManager.get_favorites (st : FavoriteManager) (platform user_id : String) :
    List HitokotoFavorite :=
  (alGet st._favorites (compositeId platform user_id)).getD []

/-- models.py `FavoriteManager.get_favorite_by_index`: 0-based bounds check
`0 <= index < len(favorites)`. -/
def FavoriteManager.get_favorite_by_index (st : FavoriteManager)
    (platform user_id : String) (index : Int) : Option HitokotoFavorite :=
  let favs := st.get_favorites platform user_id
  if 0 ≤ index ∧ index < (favs.length : Int) then favs[index.toNat]? else none

/-- models.py `FavoriteManager.remove_favorite`: pop at a valid 0-based
index and save; returns success, the new state, and the saved flag. -/
def FavoriteManager.remove_favorite (st : FavoriteManager)
    (platform user_id : String) (index : Int) : Bool × FavoriteManager × Bool :=
  let cid := compositeId platform user_id
  let favs := (alGet st._favorites cid).getD []
  if 0 ≤ index ∧ index < (favs.length : Int) then
    (true, { st with _favorites := alSet st._favorites cid (favs.eraseIdx index.toNat) }, true)
  else (false, st, false)

end Models

namespace Handlers

/-- Outcome of handlers/favorites.py `handle_favorite_list`; this handler
has no invalid-page reply. -/
inductive FavListResult where
  | noFavorites
  | pageView (page : Nat) (total_pages : Nat) (items : List Models.HitokotoFavorite)
deriving DecidableEq, Repr

/-- handlers/favorites.py `handle_favorite_list`: the page argument is
clamped into `[1, total_pages]` (`max(1, page)` then `min(page,
total_pages)`), with `total_pages = max(1, ceil(count / page_size))`. -/
def handle_favorite_list (page_size : Nat) (favs : List Models.HitokotoFavorite)
    (pageArg : Option Int) : FavListResult :=
  let page : Int := match pageArg with
    | some p => max 1 p
    | none => 1
  let total_pages : Nat := max 1 ((favs.length + page_size - 1) / page_size)
  let page2 : Int := min page (total_pages : Int)
  if favs.isEmpty then .noFavorites
  else
    let p := page2.toNat
    let start_idx := (p - 1) * page_size
    let end_idx := min (start_idx + page_size) favs.length
    .pageView p total_pages ((favs.take end_idx).drop start_idx)

/-- handlers/favorites.py `handle_view_favorite`: the 1-based argument is
clamped from below (`max(1, index) - 1`) before the 0-based lookup.
Returns the favorite shown (if any) and the 1-based index reported back. -/
def handle_view_favorite (st : Models.FavoriteManager) (platform user_id : String)
    (indexArg : Int) : Option Models.HitokotoFavorite × Int :=
  let index := max 1 indexArg - 1
  (st.get_favorite_by_index platform user_id index, index + 1)

/-- handlers/favorites.py `handle_delete_favorite`: same clamping, then
`remove_favorite`.  Returns success, the new state, and the 1-based index
reported back. -/
def handle_delete_favorite (st : Models.FavoriteManager) (platform user_id : String)
    (indexArg : Int) : Bool × Models.FavoriteManager × Int :=
  let index := max 1 indexArg - 1
  let r := st.remove_favorite platform user_id index
  (r.1, r.2.1, index + 1)

end Handlers

/-- Modelled from the spec: the file rate_limiter.py (class `RateLimiter`,
imported by __init__.py and used through `check_user` and `check_group`) is
not under src/.  Spec section 4.2: the scope key is either a user identity
or a composite (group, user) identity, tracked independently. -/
inductive ScopeKey where
  | user (user_id : String)
  | group (group_id user_id : String)
deriving DecidableEq, Repr

/-- Modelled from the spec: rate-limiter state, the last-allowed timestamp
per scope key (spec section 3, RateWindow). -/
structure RateLimiter where
  last_allowed : List (ScopeKey × Int)
deriving DecidableEq, Repr

/-- Modelled from the spec: `check(scopeKey, cooldownSeconds) → (allowed,
remainingSeconds)`.  A request is allowed iff `now - last_allowed ≥
cooldown` (a never-seen key is allowed); on allow the window resets to
`now` immediately. -/
def RateLimiter.check (rl : RateLimiter) (k : ScopeKey) (cooldown now : Int) :
    Bool × Int × RateLimiter :=
  match alGet rl.last_allowed k with
  | none => (true, 0, { last_allowed := alSet rl.last_allowed k now })
  | some t =>
    if now - t ≥ cooldown then (true, 0, { last_allowed := alSet rl.last_allowed k now })
    else (false, cooldown - (now - t), rl)

/-- Modelled from the spec: the per-user entry point used for private
chats. -/
def RateLimiter.check_user (rl : RateLimiter) (user_id : String)
    (cooldown now : Int) : Bool × Int × RateLimiter :=
  rl.check (.user user_id) cooldown now

/-- Modelled from the spec: the per-(group, user) entry point used for
group chats. -/
def RateLimiter.check_group (rl : RateLimiter) (group_id user_id : String)
    (cooldown now : Int) : Bool × Int × RateLimiter :=
  rl.check (.group group_id user_id) cooldown now

/-- Keys of a put sequence in order of their last occurrence (the key most
recently inserted-or-refreshed comes last). -/
def dedupLast (ops : List String) : List String :=
  ops.foldl (fun acc k => acc.filter (fun x => x ≠ k) ++ [k]) []

/-- Fold a sequence of `put` operations over an empty `LRUCache`. -/
def runPuts (cap : Nat) (ops : List (String × CacheItem)) : LRUCache :=
  ops.foldl (fun c kv => c.put kv.1 kv.2) { capacity := cap, cache := [] }

/-- Size invariant of the cache manager: every bucket has capacity
`max_size` and holds at most `max_size` entries. -/
def sizeInv (c : HitokotoCache) : Prop :=
  ∀ p ∈ c.type_cache, p.2.capacity = c.max_size ∧ p.2.cache.length ≤ c.max_size

/-- One step of a `get_random` experiment: threading the cache state while
counting successful calls and reset events (a reset event is a call made in
a state where `wouldReset` holds). -/
def runGR (tk : Option String) (now : Int) (acc : HitokotoCache × Nat × Nat)
    (pick : Nat) : HitokotoCache × Nat × Nat :=
  let resets := if acc.1.wouldReset tk now then acc.2.2 + 1 else acc.2.2
  let r := acc.1.get_random tk now pick
  (r.2, acc.2.1 + (if r.1.isSome then 1 else 0), resets)

/-- A sequence of `get_random` calls with given picks: final state, number
of successful calls, number of reset events. -/
def runGetRandoms (c : HitokotoCache) (tk : Option String) (now : Int)
    (picks : List Nat) : HitokotoCache × Nat × Nat :=
  picks.foldl (runGR tk now) (c, 0, 0)

/-- Definition following the words of the spec (section 4.4, for the
refinement comparison of claim C3): a write trace is the four-step
protocol when it is exactly a temp-file write, an optional rename of the
live file to the backup, the rename of the temp file onto the live path,
and an optional deletion of the backup. -/
def fourStepTrace (live tmp bak : String) (ops : List FsOp) : Prop :=
  ∃ b o2 o4,
    (o2 = [] ∨ o2 = [FsOp.replace live bak]) ∧
    (o4 = [] ∨ o4 = [FsOp.remove bak]) ∧
    ops = FsOp.write tmp b :: (o2 ++ FsOp.replace tmp live :: o4)

/-- Definition following the words of the spec (for claim C3): no direct
write to the live path occurs in the trace. -/
def noInPlaceWrite (live : String) (ops : List FsOp) : Prop :=
  ∀ b, FsOp.write live b ∉ ops

/-- Looking up the key just set yields the new value. -/
theorem alGet_alSet_self {κ α : Type} [DecidableEq κ] (l : List (κ × α)) (k : κ) (v : α) :
    alGet (alSet l k v) k = some v := by
  induction l with
  | nil => simp [alSet, alGet]
  | cons p rest ih =>
    by_cases h : p.1 = k
    · simp [alSet, h, alGet]
    · simp [alSet, h, alGet, ih]

/-- Setting one key leaves lookups of other keys unchanged. -/
theorem alGet_alSet_ne {κ α : Type} [DecidableEq κ] (l : List (κ × α)) (k k2 : κ) (v : α)
    (h : k2 ≠ k) : alGet (alSet l k v) k2 = alGet l k2 := by
  induction l with
  | nil => simp [alSet, alGet, Ne.symm h]
  | cons p rest ih =>
    by_cases hp : p.1 = k
    · subst hp
      simp [alSet, alGet, Ne.symm h]
    · simp [alSet, hp, alGet, ih]

/-- Looking up an erased key yields nothing. -/
theorem alGet_alErase_self {κ α : Type} [DecidableEq κ] (l : List (κ × α)) (k : κ) :
    alGet (alErase l k) k = none := by
  induction l with
  | nil => simp [alErase, alGet]
  | cons p rest ih =>
    by_cases h : p.1 = k
    · simpa [alErase, h] using ih
    · simpa [alErase, h, alGet] using ih

/-- Erasing one key leaves lookups of other keys unchanged. -/
theorem alGet_alErase_ne {κ α : Type} [DecidableEq κ] (l : List (κ × α)) (k k2 : κ)
    (h : k2 ≠ k) : alGet (alErase l k) k2 = alGet l k2 := by
  induction l with
  | nil => simp [alErase, alGet]
  | cons p rest ih =>
    by_cases hp : p.1 = k
    · have hpk2 : ¬ p.1 = k2 := by rw [hp]; exact Ne.symm h
      have hstep : alErase (p :: rest) k = alErase rest k := by
        simp [alErase, List.filter_cons, hp]
      rw [hstep, ih, alGet, if_neg hpk2]
    · have hstep : alErase (p :: rest) k = p :: alErase rest k := by
        simp [alErase, List.filter_cons, hp]
      rw [hstep]
      by_cases hq : p.1 = k2 <;> simp [alGet, hq, ih]

/-- C9: `RateLimiter.check` allows a request iff `now` minus the
last-allowed timestamp is at least the cooldown (a never-seen key is
allowed), resets the window to `now` on allow; an immediate second call
for the same key is denied with remaining exactly the cooldown; and
checking one scope key never touches another, the private user scope and
the (group, user) scope being distinct keys. -/
theorem rateLimiter_check_contract :
    (∀ (rl : RateLimiter) (k : ScopeKey) (c now : Int),
      ((rl.check k c now).1 = true ↔
        (∀ t, alGet rl.last_allowed k = some t → now - t ≥ c)) ∧
      ((rl.check k c now).1 = true →
        alGet (rl.check k c now).2.2.last_allowed k = some now)) ∧
    (∀ (rl : RateLimiter) (k : ScopeKey) (c now : Int),
      0 < c → (rl.check k c now).1 = true →
      (((rl.check k c now).2.2).check k c now).1 = false ∧
      (((rl.check k c now).2.2).check k c now).2.1 = c) ∧
    (∀ (rl : RateLimiter) (k k2 : ScopeKey) (c now : Int), k2 ≠ k →
      alGet ((rl.check k c now).2.2).last_allowed k2 = alGet rl.last_allowed k2) ∧
    (∀ (g u : String), ScopeKey.user u ≠ ScopeKey.group g u) := by
  have hallow : ∀ (rl : RateLimiter) (k : ScopeKey) (c now : Int),
      (rl.check k c now).1 = true →
      alGet (rl.check k c now).2.2.last_allowed k = some now := by
    intro rl k c now h
    unfold RateLimiter.check at *
    cases hg : alGet rl.last_allowed k with
    | none => simp [hg, alGet_alSet_self]
    | some t =>
      simp only [hg] at h ⊢
      by_cases hc : now - t ≥ c
      · simp [hc, alGet_alSet_self]
      · simp [hc] at h
  refine ⟨?_, ?_, ?_, ?_⟩
  · intro rl k c now
    constructor
    · constructor
      · intro h t hget
        unfold RateLimiter.check at h
        rw [hget] at h
        by_cases hc : now - t ≥ c
        · exact hc
        · simp [hc] at h
      · intro h
        unfold RateLimiter.check
        cases hg : alGet rl.last_allowed k with
        | none => simp
        | some t =>
          have := h t hg
          simp [this]
    · exact hallow rl k c now
  · intro rl k c now hc h
    have hset := hallow rl k c now h
    generalize (rl.check k c now).2.2 = rl2 at hset
    unfold RateLimiter.check
    rw [hset]
    have hlt : ¬ (now - now ≥ c) := by omega
    simp only [hlt, ge_iff_le, if_false, ite_false]
    exact ⟨trivial, by omega⟩
  · intro rl k k2 c now hne
    unfold RateLimiter.check
    cases hg : alGet rl.last_allowed k with
    | none => simp [alGet_alSet_ne _ _ _ _ hne]
    | some t =>
      by_cases hc : now - t ≥ c
      · simp [hc, alGet_alSet_ne _ _ _ _ hne]
      · simp [hc]
  · intro g u h
    exact ScopeKey.noConfusion h

/-- Witness for C9 at concrete inputs: with an empty limiter, a check for
user "u" at time 0 with cooldown 5 is allowed, and the immediate second
check is denied with remaining 5. -/
theorem rateLimiter_check_contract_witness :
    (0 : Int) < 5 ∧
    ((({ last_allowed := [] } : RateLimiter).check (.user "u") 5 0).1 = true) ∧
    (((({ last_allowed := [] } : RateLimiter).check (.user "u") 5 0).2.2).check
      (.user "u") 5 0).1 = false ∧
    (((({ last_allowed := [] } : RateLimiter).check (.user "u") 5 0).2.2).check
      (.user "u") 5 0).2.1 = 5 := by
  refine ⟨by decide, by decide, ?_, ?_⟩
  · exact (rateLimiter_check_contract.2.1 { last_allowed := [] } (.user "u") 5 0
      (by decide) (by decide)).1
  · exact (rateLimiter_check_contract.2.1 { last_allowed := [] } (.user "u") 5 0
      (by decide) (by decide)).2

/-- C10: in the handlers layer, a requested index of at most 1 (including
0 and negatives) is clamped to the first favorite: delete removes favorite
number 1 and reports success for index 1, and view shows favorite number 1,
with no invalid-index error. -/
theorem handlers_low_index_clamps_to_first :
    ∀ (st : Models.FavoriteManager) (platform user_id : String) (indexArg : Int)
      (favs : List Models.HitokotoFavorite),
      alGet st._favorites (Models.compositeId platform user_id) = some favs →
      favs ≠ [] → indexArg ≤ 1 →
      (Handlers.handle_delete_favorite st platform user_id indexArg).1 = true ∧
      (Handlers.handle_delete_favorite st platform user_id indexArg).2.2 = 1 ∧
      alGet ((Handlers.handle_delete_favorite st platform user_id indexArg).2.1)._favorites
        (Models.compositeId platform user_id) = some favs.tail ∧
      (Handlers.handle_view_favorite st platform user_id indexArg).1 = favs[0]? ∧
      (Handlers.handle_view_favorite st platform user_id indexArg).2 = 1 ∧
      favs[0]?.isSome = true := by
  intro st platform user_id indexArg favs hget hne hle
  obtain ⟨x, xs, rfl⟩ := List.exists_cons_of_ne_nil hne
  have hmax : max 1 indexArg = 1 := max_eq_left hle
  have hidx : max 1 indexArg - 1 = 0 := by rw [hmax]; ring
  have hrange : (0 : Int) ≤ 0 ∧ (0 : Int) < ((x :: xs).length : Int) := by
    constructor
    · exact le_refl 0
    · exact_mod_cast Nat.succ_pos xs.length
  refine ⟨?_, ?_, ?_, ?_, ?_, ?_⟩
  · simp [Handlers.handle_delete_favorite, hidx, Models.FavoriteManager.remove_favorite,
      hget, hrange]
  · simp [Handlers.handle_delete_favorite, hidx]
  · simp [Handlers.handle_delete_favorite, hidx, Models.FavoriteManager.remove_favorite,
      hget, hrange, alGet_alSet_self]
  · simp [Handlers.handle_view_favorite, hidx, Models.FavoriteManager.get_favorite_by_index,
      Models.FavoriteManager.get_favorites, hget, hrange]
  · simp [Handlers.handle_view_favorite, hidx]
  · simp

/-- Witness for C10 at a concrete store: one favorite, requested index 0. -/
theorem handlers_low_index_clamps_to_first_witness :
    (let f : Models.HitokotoFavorite :=
      { content := "c", uuid := "u1", type_name := "t", source := "s",
        creator := "cr", created_at := 0 }
     let st : Models.FavoriteManager :=
      { _favorites := [("p:me", [f])], _last_hitokoto := [] }
     alGet st._favorites (Models.compositeId "p" "me") = some [f] ∧
     ([f] : List Models.HitokotoFavorite) ≠ [] ∧ (0 : Int) ≤ 1 ∧
     (Handlers.handle_delete_favorite st "p" "me" 0).1 = true ∧
     (Handlers.handle_view_favorite st "p" "me" 0).1 = some f) := by
  intro f st
  have h := handlers_low_index_clamps_to_first st "p" "me" 0 [f]
    (by decide) (by decide) (by decide)
  exact ⟨by decide, by decide, by decide, h.1, h.2.2.2.1⟩

/-- C8: loading the favorites store is total (never raises): a parseable
live file is returned as-is; a present-but-unparseable live file falls back
to the backup, which on success is promoted to the live path (backup slot
emptied); when the live file is absent or unreadable and the backup is
absent or unreadable the store starts empty; and in the crash state where
the live file is absent (only a temp file remains) the result is the
backup content or the empty store. -/
theorem load_favorites_recovery :
    (∀ (fs : FS) (m : List (String × List HitokotoSentence)),
      alGet fs favLive = some (.fav m) →
      Plugin.load_favorites_run fs = (m, fs)) ∧
    (∀ (fs : FS) (b : Blob) (m : List (String × List HitokotoSentence)),
      alGet fs favLive = some b → Plugin.parseFav b = none →
      alGet fs favBak = some (.fav m) →
      (Plugin.load_favorites_run fs).1 = m ∧
      alGet (Plugin.load_favorites_run fs).2 favLive = some (.fav m) ∧
      alGet (Plugin.load_favorites_run fs).2 favBak = none) ∧
    (∀ fs : FS, (∀ b, alGet fs favLive = some b → Plugin.parseFav b = none) →
      (∀ b, alGet fs favBak = some b → Plugin.parseFav b = none) →
      (Plugin.load_favorites_run fs).1 = []) ∧
    (∀ fs : FS, alGet fs favLive = none →
      (Plugin.load_favorites_run fs).1 = [] ∨
      (∃ m, alGet fs favBak = some (.fav m) ∧ (Plugin.load_favorites_run fs).1 = m)) := by
  have hbakne : favBak ≠ favLive := by decide
  refine ⟨?_, ?_, ?_, ?_⟩
  · intro fs m hlive
    simp [Plugin.load_favorites_run, hlive, Plugin.parseFav]
  · intro fs b m hlive hparse hbak
    have hfav : Plugin.parseFav (Blob.fav m) = some m := rfl
    simp only [Plugin.load_favorites_run, hlive, hparse, hbak, hfav, applyOp]
    refine ⟨trivial, ?_, ?_⟩
    · rw [alGet_alSet_self]
    · rw [alGet_alSet_ne _ _ _ _ hbakne, alGet_alErase_self]
  · intro fs hlive hbak
    unfold Plugin.load_favorites_run
    cases hl : alGet fs favLive with
    | none => rfl
    | some b =>
      simp only [hlive b hl]
      cases hb : alGet fs favBak with
      | none => rfl
      | some b2 => simp only [hbak b2 hb]
  · intro fs hlive
    left
    simp [Plugin.load_favorites_run, hlive]

/-- Witness for C8 at a concrete crashed store: the live file is corrupt
and the backup holds one user with no records; the load returns the backup
content and promotes it to the live path. -/
theorem load_favorites_recovery_witness :
    (let fs : FS := [(favLive, Blob.corrupt), (favBak, Blob.fav [("u", [])])]
     alGet fs favLive = some Blob.corrupt ∧
     Plugin.parseFav Blob.corrupt = none ∧
     alGet fs favBak = some (Blob.fav [("u", [])]) ∧
     (Plugin.load_favorites_run fs).1 = [("u", [])] ∧
     alGet (Plugin.load_favorites_run fs).2 favLive = some (Blob.fav [("u", [])])) := by
  intro fs
  have h := load_favorites_recovery.2.1 fs Blob.corrupt [("u", [])]
    (by decide) (by decide) (by decide)
  exact ⟨by decide, by decide, by decide, h.1, h.2.1⟩

/-- The operation trace of `save_favorites`: the temp write, the optional
live-to-backup rename, the temp-to-live rename, and the backup deletion
(performed whenever a backup exists at step 4, i.e. when a live file was
just renamed onto it or a stale backup was already lying around). -/
theorem save_favorites_run_trace (fs : FS) (d : List (String × List HitokotoSentence)) :
    (Plugin.save_favorites_run fs d).2 =
      FsOp.write favTmp (.fav d) ::
      ((if (alGet fs favLive).isSome then [FsOp.replace favLive favBak] else []) ++
       FsOp.replace favTmp favLive ::
       (if (alGet fs favLive).isSome ∨ (alGet fs favBak).isSome then
         [FsOp.remove favBak] else [])) := by
  have hlt : favLive ≠ favTmp := by decide
  have hbt : favBak ≠ favTmp := by decide
  have hbl : favBak ≠ favLive := by decide
  have h1 : alGet (alSet fs favTmp (Blob.fav d)) favLive = alGet fs favLive :=
    alGet_alSet_ne _ _ _ _ hlt
  by_cases hl : (alGet fs favLive).isSome
  · obtain ⟨bl, hbl2⟩ := Option.isSome_iff_exists.mp hl
    simp only [Plugin.save_favorites_run, applyOps, List.foldl, applyOp, h1, hbl2,
      Option.isSome_some, if_true, true_or]
    have h2 : alGet (alSet (alErase (alSet fs favTmp (Blob.fav d)) favLive) favBak bl)
        favTmp = some (Blob.fav d) := by
      rw [alGet_alSet_ne _ _ _ _ (Ne.symm hbt), alGet_alErase_ne _ _ _ (Ne.symm hlt),
        alGet_alSet_self]
    have h3 : ∀ fs2 : FS, alGet fs2 favTmp = some (Blob.fav d) →
        alGet (alSet (alErase fs2 favTmp) favLive (Blob.fav d)) favBak =
          alGet fs2 favBak := by
      intro fs2 _
      rw [alGet_alSet_ne _ _ _ _ hbl, alGet_alErase_ne _ _ _ hbt]
    rw [h2]
    simp only [h3 _ h2, alGet_alSet_self, Option.isSome_some, if_true]
    simp
  · have hlnone : alGet fs favLive = none := Option.not_isSome_iff_eq_none.mp hl
    simp only [Plugin.save_favorites_run, applyOps, List.foldl, applyOp, h1, hlnone,
      Option.isSome_none, if_false, false_or, List.nil_append]
    have h2 : alGet (alSet fs favTmp (Blob.fav d)) favTmp = some (Blob.fav d) :=
      alGet_alSet_self _ _ _
    rw [h2]
    have h3 : alGet (alSet (alErase (alSet fs favTmp (Blob.fav d)) favTmp) favLive
        (Blob.fav d)) favBak = alGet fs favBak := by
      rw [alGet_alSet_ne _ _ _ _ hbl, alGet_alErase_ne _ _ _ hbt,
        alGet_alSet_ne _ _ _ _ hbt]
    rw [h3]
    simp

/-- C3 amended: the plugin-module favorites save follows the four-step
crash-safety protocol (temp write, optional live-to-backup rename,
temp-to-live rename, optional backup deletion) and never writes the live
favorites file in place; the cache snapshot save and the models-layer
favorites save do not — each is a single in-place write of the live file
with no temp file and no backup (see the counterexample). -/
theorem save_favorites_follows_protocol :
    ∀ (fs : FS) (d : List (String × List HitokotoSentence)),
      fourStepTrace favLive favTmp favBak (Plugin.save_favorites_run fs d).2 ∧
      noInPlaceWrite favLive (Plugin.save_favorites_run fs d).2 := by
  intro fs d
  have htr := save_favorites_run_trace fs d
  constructor
  · refine ⟨Blob.fav d,
      (if (alGet fs favLive).isSome then [FsOp.replace favLive favBak] else []),
      (if (alGet fs favLive).isSome ∨ (alGet fs favBak).isSome then
        [FsOp.remove favBak] else []), ?_, ?_, htr⟩
    · by_cases h : (alGet fs favLive).isSome <;> simp [h]
    · by_cases h : (alGet fs favLive).isSome ∨ (alGet fs favBak).isSome <;> simp [h]
  · intro b hmem
    rw [htr] at hmem
    have hwt : FsOp.write favLive b ≠ FsOp.write favTmp (Blob.fav d) := by
      intro h
      injection h with h1 h2
      exact absurd h1 (by decide)
    simp only [List.mem_cons, List.mem_append] at hmem
    rcases hmem with h | h | h
    · exact hwt h
    · by_cases hc : (alGet fs favLive).isSome <;> simp [hc] at h
    · rcases h with h | h
      · exact FsOp.noConfusion h
      · by_cases hc : (alGet fs favLive).isSome ∨ (alGet fs favBak).isSome <;>
          simp [hc] at h

/-- Witness for C3 at a concrete state: saving over an existing live
favorites file produces exactly the four-step trace. -/
theorem save_favorites_follows_protocol_witness :
    fourStepTrace favLive favTmp favBak
      (Plugin.save_favorites_run [(favLive, Blob.corrupt)] []).2 ∧
    noInPlaceWrite favLive
      (Plugin.save_favorites_run [(favLive, Blob.corrupt)] []).2 :=
  save_favorites_follows_protocol [(favLive, Blob.corrupt)] []

/-- Counterexample for C3 as stated: the cache snapshot save and the
models-layer favorites save each overwrite their live file in place — the
trace is a single direct write to the live path, which is not the
four-step protocol. -/
theorem cache_save_in_place_counterexample :
    (cache_save_run [(cacheLive, Blob.corrupt)]
      { type_cache := [], stats := { hits := 0, misses := 0, last_cleanup := 0 } }).2 =
      [FsOp.write cacheLive (Blob.cacheSnap
        { type_cache := [], stats := { hits := 0, misses := 0, last_cleanup := 0 } })] ∧
    ¬ noInPlaceWrite cacheLive
      (cache_save_run [(cacheLive, Blob.corrupt)]
        { type_cache := [], stats := { hits := 0, misses := 0, last_cleanup := 0 } }).2 ∧
    ¬ fourStepTrace cacheLive "cache.json.tmp" "cache.json.bak"
      (cache_save_run [(cacheLive, Blob.corrupt)]
        { type_cache := [], stats := { hits := 0, misses := 0, last_cleanup := 0 } }).2 ∧
    (Models.FavoriteManager.save_data_run
      { _favorites := [], _last_hitokoto := [] } [(modelsFavLive, Blob.corrupt)]).2 =
      [FsOp.write modelsFavLive (Blob.mfav [])] ∧
    ¬ noInPlaceWrite modelsFavLive
      (Models.FavoriteManager.save_data_run
        { _favorites := [], _last_hitokoto := [] } [(modelsFavLive, Blob.corrupt)]).2 := by
  refine ⟨rfl, ?_, ?_, rfl, ?_⟩
  · intro h
    exact h (Blob.cacheSnap
      { type_cache := [], stats := { hits := 0, misses := 0, last_cleanup := 0 } })
      (by simp [cache_save_run])
  · rintro ⟨b, o2, o4, h2, h4, heq⟩
    simp only [cache_save_run] at heq
    have hhd := List.head_eq_of_cons_eq heq
    injection hhd with h1 h2b
    exact absurd h1 (by decide)
  · intro h
    exact h (Blob.mfav []) (by simp [Models.FavoriteManager.save_data_run])

/-- C4 amended: the plugin-module `handle_add_favorite` fails as a
no-recent-sentence error iff the last-fetched slot is absent or older than
the favorite timeout; fails as already-favorited iff the slot is fresh and
a record with the same id is in the list; fails as quota-exceeded iff the
slot is fresh, no duplicate exists, and the list is at the configured
maximum; otherwise appends exactly one record and persists; and after a
success an immediate second call returns already-favorited.  (The
models-layer `FavoriteManager.add_favorite` enforces neither the timeout
nor the quota — see the counterexample.) -/
theorem handle_add_favorite_contract :
    ∀ (timeout : Int) (maxFav : Nat) (st : Plugin.FavState) (user : String) (now : Int),
      (((Plugin.handle_add_favorite timeout maxFav st user now).1 = .noSentence ∨
        (Plugin.handle_add_favorite timeout maxFav st user now).1 = .favTimeout) ↔
        (alGet st.last_sentences user = none ∨
         ∃ last, alGet st.last_sentences user = some last ∧
           now - last.timestamp > timeout)) ∧
      ((Plugin.handle_add_favorite timeout maxFav st user now).1 = .alreadyFavorited ↔
        ∃ last, alGet st.last_sentences user = some last ∧
          now - last.timestamp ≤ timeout ∧
          ∃ fav ∈ (alGet st.user_favorites user).getD [],
            fav.id = last.sentence.id) ∧
      ((Plugin.handle_add_favorite timeout maxFav st user now).1 = .quotaExceeded ↔
        ∃ last, alGet st.last_sentences user = some last ∧
          now - last.timestamp ≤ timeout ∧
          (∀ fav ∈ (alGet st.user_favorites user).getD [],
            fav.id ≠ last.sentence.id) ∧
          ((alGet st.user_favorites user).getD []).length ≥ maxFav) ∧
      ((Plugin.handle_add_favorite timeout maxFav st user now).1 = .success →
        (Plugin.handle_add_favorite timeout maxFav st user now).2.2 = true ∧
        ∃ last, alGet st.last_sentences user = some last ∧
          alGet (Plugin.handle_add_favorite timeout maxFav st user now).2.1.user_favorites
            user = some ((alGet st.user_favorites user).getD [] ++ [last.sentence])) ∧
      ((Plugin.handle_add_favorite timeout maxFav st user now).1 = .success →
        (Plugin.handle_add_favorite timeout maxFav
          (Plugin.handle_add_favorite timeout maxFav st user now).2.1 user now).1 =
          .alreadyFavorited) := by
  intro timeout maxFav st user now
  cases hlast : alGet st.last_sentences user with
  | none =>
    simp only [Plugin.handle_add_favorite, hlast]
    refine ⟨?_, ?_, ?_, ?_, ?_⟩ <;> simp
  | some last =>
    by_cases ht : now - last.timestamp > timeout
    · simp only [Plugin.handle_add_favorite, hlast, if_pos ht]
      refine ⟨?_, ?_, ?_, ?_, ?_⟩
      · simp [ht]
      · constructor
        · intro h
          exact absurd h (by simp)
        · rintro ⟨l2, hl2, hle2, -⟩
          cases hl2
          exact absurd ht (by omega)
      · constructor
        · intro h
          exact absurd h (by simp)
        · rintro ⟨l2, hl2, hle2, -, -⟩
          cases hl2
          exact absurd ht (by omega)
      · intro h
        exact absurd h (by simp)
      · intro h
        exact absurd h (by simp)
    · have htle : now - last.timestamp ≤ timeout := not_lt.mp ht
      by_cases hdup : ((alGet st.user_favorites user).getD []).any
          (fun fav => fav.id = last.sentence.id)
      · have hdup2 : ∃ fav ∈ (alGet st.user_favorites user).getD [],
            fav.id = last.sentence.id := by
          simpa [List.any_eq_true, decide_eq_true_eq] using hdup
        simp only [Plugin.handle_add_favorite, hlast, if_neg ht, if_pos hdup]
        refine ⟨?_, ?_, ?_, ?_, ?_⟩
        · simp [ht]
        · constructor
          · intro _
            exact ⟨last, rfl, htle, hdup2⟩
          · intro _
            trivial
        · constructor
          · intro h
            exact absurd h (by simp)
          · rintro ⟨l2, hl2, -, hall, -⟩
            cases hl2
            obtain ⟨fav, hmem, hid⟩ := hdup2
            exact absurd hid (hall fav hmem)
        · intro h
          exact absurd h (by simp)
        · intro h
          exact absurd h (by simp)
      · have hnodup : ∀ fav ∈ (alGet st.user_favorites user).getD [],
            fav.id ≠ last.sentence.id := by
          intro fav hmem heq
          exact hdup (List.any_eq_true.mpr ⟨fav, hmem, by simpa using heq⟩)
        by_cases hq : ((alGet st.user_favorites user).getD []).length ≥ maxFav
        · simp only [Plugin.handle_add_favorite, hlast, if_neg ht, if_neg hdup, if_pos hq]
          refine ⟨?_, ?_, ?_, ?_, ?_⟩
          · simp [ht]
          · constructor
            · intro h
              exact absurd h (by simp)
            · rintro ⟨l2, hl2, -, fav, hmem, hid⟩
              cases hl2
              exact absurd hid (hnodup fav hmem)
          · constructor
            · intro _
              exact ⟨last, rfl, htle, hnodup, hq⟩
            · intro _
              trivial
          · intro h
            exact absurd h (by simp)
          · intro h
            exact absurd h (by simp)
        · have hfavs2 : alGet
              (Plugin.handle_add_favorite timeout maxFav st user now).2.1.user_favorites
              user = some ((alGet st.user_favorites user).getD [] ++ [last.sentence]) := by
            simp only [Plugin.handle_add_favorite, hlast, if_neg ht, if_neg hdup, if_neg hq]
            rw [alGet_alSet_self]
          have hlast2 : alGet
              (Plugin.handle_add_favorite timeout maxFav st user now).2.1.last_sentences
              user = some last := by
            simp only [Plugin.handle_add_favorite, hlast, if_neg ht, if_neg hdup, if_neg hq]
          have hsecond : (Plugin.handle_add_favorite timeout maxFav
              (Plugin.handle_add_favorite timeout maxFav st user now).2.1 user now).1 =
              .alreadyFavorited := by
            generalize (Plugin.handle_add_favorite timeout maxFav st user now).2.1 = st2
              at hfavs2 hlast2
            have hany : (((alGet st.user_favorites user).getD [] ++ [last.sentence]).any
                (fun fav => decide (fav.id = last.sentence.id))) = true := by
              simp
            simp only [Plugin.handle_add_favorite, hlast2, hfavs2, Option.getD_some,
              if_neg ht]
            simp [hany]
          simp only [Plugin.handle_add_favorite, hlast, if_neg ht, if_neg hdup, if_neg hq]
            at hsecond ⊢
          refine ⟨?_, ?_, ?_, ?_, ?_⟩
          · simp [ht]
          · constructor
            · intro h
              exact absurd h (by simp)
            · rintro ⟨l2, hl2, -, fav, hmem, hid⟩
              cases hl2
              exact absurd hid (hnodup fav hmem)
          · constructor
            · intro h
              exact absurd h (by simp)
            · rintro ⟨l2, hl2, -, -, hlen⟩
              cases hl2
              exact absurd hlen hq
          · intro _
            refine ⟨trivial, last, rfl, ?_⟩
            rw [alGet_alSet_self]
          · intro _
            exact hsecond

/-- Witness for C4 at a concrete state: a fresh last-fetched sentence with
an empty list succeeds, appends one record, persists, and leaves the
second immediate call failing as already-favorited. -/
theorem handle_add_favorite_contract_witness :
    (let s : HitokotoSentence :=
      { id := 1, uuid := "x", hitokoto := "h", type := "a", from_ := "f",
        from_who := none, creator := "c", creator_uid := 0, reviewer := 0,
        commit_from := "w", created_at := "t", length := 1 }
     let st : Plugin.FavState :=
      { user_favorites := [], last_sentences := [("me", { sentence := s, timestamp := 0 })],
        pending_deletes := [] }
     (Plugin.handle_add_favorite 60 100 st "me" 10).1 = .success ∧
     (Plugin.handle_add_favorite 60 100 st "me" 10).2.2 = true ∧
     (Plugin.handle_add_favorite 60 100
       (Plugin.handle_add_favorite 60 100 st "me" 10).2.1 "me" 10).1 =
       .alreadyFavorited) := by
  intro s st
  refine ⟨by decide, ?_, ?_⟩
  · exact ((handle_add_favorite_contract 60 100 st "me" 10).2.2.2.1 (by decide)).1
  · exact (handle_add_favorite_contract 60 100 st "me" 10).2.2.2.2 (by decide)

/-- Counterexample for C4 as stated: the models-layer
`FavoriteManager.add_favorite` never fails with a quota error — with a
configured maximum of 1 and a list already holding 1 record it still
succeeds and grows the list to 2 (it also checks no favorite-timeout: its
last-fetched slot carries no timestamp at all). -/
theorem models_add_favorite_ignores_quota_counterexample :
    (let f1 : Models.HitokotoFavorite :=
      { content := "a", uuid := "u1", type_name := "t", source := "s",
        creator := "c", created_at := 0 }
     let f2 : Models.HitokotoFavorite :=
      { content := "b", uuid := "u2", type_name := "t", source := "s",
        creator := "c", created_at := 0 }
     let st : Models.FavoriteManager :=
      { _favorites := [("p:me", [f1])], _last_hitokoto := [("p:me", f2)] }
     ([f1].length ≥ 1) ∧
     (Models.FavoriteManager.add_favorite st "p" "me").1 = some f2 ∧
     alGet (Models.FavoriteManager.add_favorite st "p" "me").2.1._favorites "p:me" =
       some [f1, f2]) := by
  intro f1 f2 st
  refine ⟨by decide, by decide, by decide⟩

/-- C5: the delete-confirmation state machine of `handle_delete_favorite`:
an index outside `[1, len]` is an error with no state change; with no
pending entry a confirmation is requested and a pending entry (index, now)
recorded; an expired pending entry is discarded and the request treated as
fresh; a non-expired pending entry for the same index deletes the favorite
and clears the pending state; a non-expired pending entry for a different
index is replaced by the new index with a restarted timeout and nothing is
removed. -/
theorem handle_delete_favorite_state_machine :
    ∀ (st : Plugin.FavState) (user : String) (index now : Int)
      (favs : List HitokotoSentence),
      alGet st.user_favorites user = some favs → favs ≠ [] →
      ((index ≤ 0 ∨ index > (favs.length : Int)) →
        (Plugin.handle_delete_favorite st user index now).1 = .invalidIndex favs.length ∧
        (Plugin.handle_delete_favorite st user index now).2.1 = st ∧
        (Plugin.handle_delete_favorite st user index now).2.2 = false) ∧
      (1 ≤ index → index ≤ (favs.length : Int) →
        alGet st.pending_deletes user = none →
        ∃ target, favs[(index - 1).toNat]? = some target ∧
          (Plugin.handle_delete_favorite st user index now).1 =
            .confirmRequest index target ∧
          (Plugin.handle_delete_favorite st user index now).2.1.user_favorites =
            st.user_favorites ∧
          alGet (Plugin.handle_delete_favorite st user index now).2.1.pending_deletes
            user = some (index, now) ∧
          (Plugin.handle_delete_favorite st user index now).2.2 = false) ∧
      (∀ pidx pts, 1 ≤ index → index ≤ (favs.length : Int) →
        alGet st.pending_deletes user = some (pidx, pts) →
        now - pts > Plugin.DELETE_CONFIRM_TIMEOUT →
        ∃ target, favs[(index - 1).toNat]? = some target ∧
          (Plugin.handle_delete_favorite st user index now).1 =
            .confirmRequest index target ∧
          (Plugin.handle_delete_favorite st user index now).2.1.user_favorites =
            st.user_favorites ∧
          alGet (Plugin.handle_delete_favorite st user index now).2.1.pending_deletes
            user = some (index, now) ∧
          (Plugin.handle_delete_favorite st user index now).2.2 = false) ∧
      (∀ pts, 1 ≤ index → index ≤ (favs.length : Int) →
        alGet st.pending_deletes user = some (index, pts) →
        now - pts ≤ Plugin.DELETE_CONFIRM_TIMEOUT →
        ∃ removed, favs[(index - 1).toNat]? = some removed ∧
          (Plugin.handle_delete_favorite st user index now).1 = .deleted removed ∧
          alGet (Plugin.handle_delete_favorite st user index now).2.1.user_favorites
            user = some (favs.eraseIdx (index - 1).toNat) ∧
          alGet (Plugin.handle_delete_favorite st user index now).2.1.pending_deletes
            user = none ∧
          (Plugin.handle_delete_favorite st user index now).2.2 = true) ∧
      (∀ pidx pts, 1 ≤ index → index ≤ (favs.length : Int) →
        alGet st.pending_deletes user = some (pidx, pts) →
        now - pts ≤ Plugin.DELETE_CONFIRM_TIMEOUT → pidx ≠ index →
        ∃ target, favs[(index - 1).toNat]? = some target ∧
          (Plugin.handle_delete_favorite st user index now).1 =
            .confirmRequest index target ∧
          (Plugin.handle_delete_favorite st user index now).2.1.user_favorites =
            st.user_favorites ∧
          alGet (Plugin.handle_delete_favorite st user index now).2.1.pending_deletes
            user = some (index, now) ∧
          (Plugin.handle_delete_favorite st user index now).2.2 = false) := by
  intro st user index now favs hfavs hne
  have hnotempty : favs.isEmpty = false := by
    cases favs with
    | nil => exact absurd rfl hne
    | cons a l => rfl
  refine ⟨?_, ?_, ?_, ?_, ?_⟩
  · intro hout
    simp only [Plugin.handle_delete_favorite, hfavs, Option.getD_some, hnotempty,
      Bool.false_eq_true, if_false, if_pos hout]
    exact ⟨by trivial, by trivial, by trivial⟩
  · intro h1 h2 hpend
    have hlt : (index - 1).toNat < favs.length := by omega
    have hin : ¬ (index ≤ 0 ∨ index > (favs.length : Int)) := by omega
    refine ⟨favs[(index - 1).toNat], List.getElem?_eq_getElem hlt, ?_⟩
    simp only [Plugin.handle_delete_favorite, hfavs, Option.getD_some, hnotempty,
      Bool.false_eq_true, if_false, if_neg hin, hpend, List.getElem?_eq_getElem hlt]
    exact ⟨by trivial, by trivial, alGet_alSet_self _ _ _, by trivial⟩
  · intro pidx pts h1 h2 hpend hexp
    have hlt : (index - 1).toNat < favs.length := by omega
    have hin : ¬ (index ≤ 0 ∨ index > (favs.length : Int)) := by omega
    refine ⟨favs[(index - 1).toNat], List.getElem?_eq_getElem hlt, ?_⟩
    simp only [Plugin.handle_delete_favorite, hfavs, Option.getD_some, hnotempty,
      Bool.false_eq_true, if_false, if_neg hin, hpend, if_pos hexp,
      List.getElem?_eq_getElem hlt]
    exact ⟨by trivial, by trivial, alGet_alSet_self _ _ _, by trivial⟩
  · intro pts h1 h2 hpend hfresh
    have hlt : (index - 1).toNat < favs.length := by omega
    have hin : ¬ (index ≤ 0 ∨ index > (favs.length : Int)) := by omega
    have hnexp : ¬ (now - pts > Plugin.DELETE_CONFIRM_TIMEOUT) := not_lt.mpr hfresh
    refine ⟨favs[(index - 1).toNat], List.getElem?_eq_getElem hlt, ?_⟩
    simp only [Plugin.handle_delete_favorite, hfavs, Option.getD_some, hnotempty,
      Bool.false_eq_true, if_false, if_neg hin, hpend, if_neg hnexp, if_pos rfl,
      List.getElem?_eq_getElem hlt]
    exact ⟨by trivial, alGet_alSet_self _ _ _, alGet_alErase_self _ _, by trivial⟩
  · intro pidx pts h1 h2 hpend hfresh hdiff
    have hlt : (index - 1).toNat < favs.length := by omega
    have hin : ¬ (index ≤ 0 ∨ index > (favs.length : Int)) := by omega
    have hnexp : ¬ (now - pts > Plugin.DELETE_CONFIRM_TIMEOUT) := not_lt.mpr hfresh
    refine ⟨favs[(index - 1).toNat], List.getElem?_eq_getElem hlt, ?_⟩
    simp only [Plugin.handle_delete_favorite, hfavs, Option.getD_some, hnotempty,
      Bool.false_eq_true, if_false, if_neg hin, hpend, if_neg hnexp, if_neg hdiff,
      List.getElem?_eq_getElem hlt]
    exact ⟨by trivial, by trivial, alGet_alSet_self _ _ _, by trivial⟩

/-- Witness for C5 at a concrete state: one favorite, a non-expired pending
delete for index 1, and a confirming request at index 1: the favorite is
removed, the pending state cleared, and the change persisted. -/
theorem handle_delete_favorite_state_machine_witness :
    (let s : HitokotoSentence :=
      { id := 1, uuid := "x", hitokoto := "h", type := "a", from_ := "f",
        from_who := none, creator := "c", creator_uid := 0, reviewer := 0,
        commit_from := "w", created_at := "t", length := 1 }
     let st : Plugin.FavState :=
      { user_favorites := [("me", [s])], last_sentences := [],
        pending_deletes := [("me", (1, 0))] }
     (Plugin.handle_delete_favorite st "me" 1 10).1 = .deleted s ∧
     alGet (Plugin.handle_delete_favorite st "me" 1 10).2.1.user_favorites "me" =
       some [] ∧
     alGet (Plugin.handle_delete_favorite st "me" 1 10).2.1.pending_deletes "me" =
       none ∧
     (Plugin.handle_delete_favorite st "me" 1 10).2.2 = true) := by
  intro s st
  have h := (handle_delete_favorite_state_machine st "me" 1 10 [s]
    (by decide) (by decide)).2.2.2.1 0 (by decide) (by decide) (by decide) (by decide)
  obtain ⟨removed, hget, hres, hfavs, hpend, hsaved⟩ := h
  have hrem : removed = s := by
    have : ([s] : List HitokotoSentence)[((1 : Int) - 1).toNat]? = some s := by decide
    rw [this] at hget
    exact (Option.some_injective _ hget.symm)
  subst hrem
  exact ⟨hres, by simpa using hfavs, hpend, hsaved⟩

/-- C2 amended: for a user with at least one favorite, the plugin-module
`handle_list_favorites` rejects an explicit page outside
`[1, totalPages]` (totalPages = ceil(count / pageSize)) with an
invalid-page error and serves any page inside the range; the handlers-layer
`handle_favorite_list`, however, silently clamps every requested page into
`[1, totalPages]` and has no invalid-page reply at all. -/
theorem list_favorites_page_validation :
    ∀ (per_page : Nat) (st : Plugin.FavState) (user : String)
      (favs : List HitokotoSentence) (p : Int),
      alGet st.user_favorites user = some favs → favs ≠ [] →
      ((p ≤ 0 ∨ p > (((favs.length + per_page - 1) / per_page : Nat) : Int)) →
        Plugin.handle_list_favorites per_page st user (some p) =
          .invalidPage ((favs.length + per_page - 1) / per_page)) ∧
      (1 ≤ p → p ≤ (((favs.length + per_page - 1) / per_page : Nat) : Int) →
        Plugin.handle_list_favorites per_page st user (some p) =
          .pageView p.toNat ((favs.length + per_page - 1) / per_page)
            ((favs.take (min ((p.toNat - 1) * per_page + per_page) favs.length)).drop
              ((p.toNat - 1) * per_page))) ∧
      (∀ (page_size : Nat) (mfavs : List Models.HitokotoFavorite) (q : Int),
        mfavs ≠ [] →
        ∃ items, Handlers.handle_favorite_list page_size mfavs (some q) =
          .pageView ((min (max 1 q)
              ((max 1 ((mfavs.length + page_size - 1) / page_size) : Nat) : Int)).toNat)
            (max 1 ((mfavs.length + page_size - 1) / page_size)) items) := by
  intro per_page st user favs p hfavs hne
  have hnotempty : favs.isEmpty = false := by
    cases favs with
    | nil => exact absurd rfl hne
    | cons a l => rfl
  refine ⟨?_, ?_, ?_⟩
  · intro hout
    simp only [Plugin.handle_list_favorites, hfavs, hnotempty, Bool.false_eq_true,
      if_false, Option.isSome_some, Option.getD_some, true_and]
    rw [if_pos hout]
  · intro h1 h2
    have hin : ¬ (p ≤ 0 ∨ p > (((favs.length + per_page - 1) / per_page : Nat) : Int)) := by
      omega
    simp only [Plugin.handle_list_favorites, hfavs, hnotempty, Bool.false_eq_true,
      if_false, Option.isSome_some, Option.getD_some, true_and]
    rw [if_neg hin]
  · intro page_size mfavs q hmne
    have hm : mfavs.isEmpty = false := by
      cases mfavs with
      | nil => exact absurd rfl hmne
      | cons a l => rfl
    simp only [Handlers.handle_favorite_list, hm, Bool.false_eq_true, if_false]
    exact ⟨_, rfl⟩

/-- Witness for C2 at a concrete store: two favorites with page size 1
(two pages): page 3 is rejected as invalid, page 2 is served. -/
theorem list_favorites_page_validation_witness :
    (let s1 : HitokotoSentence :=
      { id := 1, uuid := "x1", hitokoto := "h1", type := "a", from_ := "f",
        from_who := none, creator := "c", creator_uid := 0, reviewer := 0,
        commit_from := "w", created_at := "t", length := 2 }
     let s2 : HitokotoSentence :=
      { id := 2, uuid := "x2", hitokoto := "h2", type := "a", from_ := "f",
        from_who := none, creator := "c", creator_uid := 0, reviewer := 0,
        commit_from := "w", created_at := "t", length := 2 }
     let st : Plugin.FavState :=
      { user_favorites := [("me", [s1, s2])], last_sentences := [],
        pending_deletes := [] }
     Plugin.handle_list_favorites 1 st "me" (some 3) = .invalidPage 2 ∧
     Plugin.handle_list_favorites 1 st "me" (some 2) = .pageView 2 2 [s2]) := by
  intro s1 s2 st
  have h := list_favorites_page_validation 1 st "me" [s1, s2] 3 (by decide) (by decide)
  have h2 := list_favorites_page_validation 1 st "me" [s1, s2] 2 (by decide) (by decide)
  constructor
  · simpa using h.1 (by decide)
  · have := h2.2.1 (by decide) (by decide)
    simpa using this

/-- Counterexample for C2 as stated: in the handlers layer, with 12
favorites and page size 5 (totalPages = 3), requesting page 4 is not an
invalid-page error — the reply is the clamped page 3. -/
theorem handlers_list_clamps_counterexample :
    (let mfavs : List Models.HitokotoFavorite := (List.range 12).map (fun i =>
      { content := toString i, uuid := toString i, type_name := "t",
        source := "s", creator := "c", created_at := 0 })
     (max 1 ((mfavs.length + 5 - 1) / 5) = 3) ∧ ((4 : Int) > 3) ∧
     Handlers.handle_favorite_list 5 mfavs (some 4) =
       .pageView 3 3 (mfavs.drop 10)) := by
  intro mfavs
  refine ⟨by decide, by decide, by decide⟩

/-- C6: whatever the random pick, a sentence returned by `get_random` comes
from an item of the requested bucket whose age is strictly below the TTL
(never an entry with age ≥ TTL); and when the requested bucket is missing
or holds no non-expired entry the call signals a miss by returning none. -/
theorem get_random_never_expired :
    ∀ (c : HitokotoCache) (sentence_type : Option String) (now : Int) (pick : Nat),
      (∀ s : HitokotoSentence,
        (c.get_random sentence_type now pick).1 = some s →
        ∃ b, alGet c.type_cache (typeKeyOrDefault sentence_type) = some b ∧
          ∃ item ∈ b.cache, item.2.data = s ∧ now - item.2.timestamp < c.ttl) ∧
      (∀ b, alGet c.type_cache (typeKeyOrDefault sentence_type) = some b →
        validOf c.ttl now b = [] →
        (c.get_random sentence_type now pick).1 = none) ∧
      (alGet c.type_cache (typeKeyOrDefault sentence_type) = none →
        (c.get_random sentence_type now pick).1 = none) := by
  intro c sentence_type now pick
  refine ⟨?_, ?_, ?_⟩
  · intro s hres
    unfold HitokotoCache.get_random at hres
    cases halg : alGet c.type_cache (typeKeyOrDefault sentence_type) with
    | none =>
      simp only [halg] at hres
      exact absurd hres (by simp)
    | some b =>
      simp only [halg] at hres
      by_cases hve : (validOf c.ttl now b).isEmpty = true
      · rw [if_pos hve] at hres
        exact absurd hres (by simp)
      · rw [if_neg hve] at hres
        refine ⟨b, rfl, ?_⟩
        split at hres
        · exact absurd hres (by simp)
        · next chosen hget =>
          simp only at hres
          have hdata : chosen.data = s := Option.some_injective _ hres
          have hvalid : chosen ∈ validOf c.ttl now b := by
            by_cases hu : (unusedOf ((alGet c.recently_used
                (typeKeyOrDefault sentence_type)).getD []) (validOf c.ttl now b)).isEmpty
              = true
            · rw [if_pos hu] at hget
              exact List.getElem?_mem hget
            · rw [if_neg hu] at hget
              have hmem := List.getElem?_mem hget
              exact List.mem_of_mem_filter hmem
          have hdecomp := List.mem_filter.mp hvalid
          obtain ⟨pair, hpairmem, hpaireq⟩ := List.mem_map.mp hdecomp.1
          refine ⟨pair, hpairmem, ?_, ?_⟩
          · rw [hpaireq, hdata]
          · have := of_decide_eq_true hdecomp.2
            rw [hpaireq]
            exact this
  · intro b halg hv
    unfold HitokotoCache.get_random
    simp only [halg, hv, List.isEmpty_nil, if_true]
  · intro halg
    unfold HitokotoCache.get_random
    simp only [halg]

/-- Witness for C6 at a concrete cache: one fresh item in bucket "a"; the
call returns it and the item's age is below the TTL. -/
theorem get_random_never_expired_witness :
    (let s : HitokotoSentence :=
      { id := 7, uuid := "x", hitokoto := "h", type := "a", from_ := "f",
        from_who := none, creator := "c", creator_uid := 0, reviewer := 0,
        commit_from := "w", created_at := "t", length := 1 }
     let c : HitokotoCache :=
      { max_size := 10, ttl := 100, type_cache :=
          [("a", { capacity := 10, cache := [("7", { data := s, timestamp := 0 })] })],
        recently_used := [("a", [])],
        stats := { hits := 0, misses := 0, last_cleanup := 0 } }
     (c.get_random (some "a") 5 0).1 = some s ∧
     (∃ b, alGet c.type_cache (typeKeyOrDefault (some "a")) = some b ∧
       ∃ item ∈ b.cache, item.2.data = s ∧ 5 - item.2.timestamp < c.ttl)) := by
  intro s c
  refine ⟨by decide, (get_random_never_expired c (some "a") 5 0).1 s (by decide)⟩

/-- Projecting keys commutes with the pair filter used by `put`. -/
theorem map_fst_filter_ne (l : List (String × CacheItem)) (k : String) :
    (l.filter (fun p => p.1 ≠ k)).map Prod.fst =
      (l.map Prod.fst).filter (fun x => x ≠ k) := by
  induction l with
  | nil => rfl
  | cons p rest ih =>
    by_cases h : p.1 = k <;>
      simp only [List.filter_cons, List.map_cons, h, ne_eq, not_true_eq_false,
        not_false_eq_true, decide_True, decide_False, Bool.false_eq_true, if_false,
        if_true, List.map_cons, ih]

/-- Filtering away a key that is not present changes nothing. -/
theorem filter_ne_of_not_mem (l : List String) (k : String) (h : k ∉ l) :
    l.filter (fun x => x ≠ k) = l := by
  rw [List.filter_eq_self]
  intro a ha
  simp only [ne_eq, decide_eq_true_eq]
  intro heq
  exact h (heq ▸ ha)

/-- Filtering away a key present exactly once removes just it. -/
theorem filter_ne_split (l1 l2 : List String) (k : String) (h1 : k ∉ l1) (h2 : k ∉ l2) :
    (l1 ++ k :: l2).filter (fun x => x ≠ k) = l1 ++ l2 := by
  simp only [List.filter_append, List.filter_cons, ne_eq, not_true_eq_false,
    decide_False, Bool.false_eq_true, if_false, filter_ne_of_not_mem l1 k h1,
    filter_ne_of_not_mem l2 k h2]

/-- A key at a split point of a duplicate-free list occurs on neither side. -/
theorem not_mem_of_nodup_split (l1 l2 : List String) (k : String)
    (h : (l1 ++ k :: l2).Nodup) : k ∉ l1 ∧ k ∉ l2 := by
  rw [List.nodup_append] at h
  refine ⟨fun hmem => h.2.2 hmem (by simp), ?_⟩
  have h2 := h.2.1
  rw [List.nodup_cons] at h2
  exact h2.1

/-- Appending one key to a put history filters it out of the previous
last-occurrence order and re-adds it at the end. -/
theorem dedupLast_append (l : List String) (k : String) :
    dedupLast (l ++ [k]) = (dedupLast l).filter (fun x => x ≠ k) ++ [k] := by
  unfold dedupLast
  rw [List.foldl_append]
  rfl

/-- The last-occurrence order of a history has no duplicate keys. -/
theorem dedupLast_nodup (l : List String) : (dedupLast l).Nodup := by
  induction l using List.reverseRecOn with
  | nil => simp [dedupLast]
  | append_singleton l k ih =>
    rw [dedupLast_append]
    have hk : k ∉ (dedupLast l).filter (fun x => x ≠ k) := by
      intro hmem
      have := List.of_mem_filter hmem
      simp at this
    simp only [List.nodup_append, List.nodup_cons, List.nodup_nil]
    exact ⟨ih.filter _, by simp, by simp [List.disjoint_singleton, hk]⟩

/-- One LRU put step on the key level matches one step of the
last-`cap`-of-last-occurrence characterization. -/
theorem lru_step (cap : Nat) (D : List String) (k : String) (hD : D.Nodup) :
    (if ((lastK cap D).filter (fun x => x ≠ k) ++ [k]).length > cap then
      ((lastK cap D).filter (fun x => x ≠ k) ++ [k]).tail
     else (lastK cap D).filter (fun x => x ≠ k) ++ [k]) =
    lastK cap (D.filter (fun x => x ≠ k) ++ [k]) := by
  by_cases hc0 : cap = 0
  · subst hc0
    have h2 : ∀ l : List String, lastK 0 l = [] := by
      intro l
      simp [lastK, List.drop_length]
    rw [h2 D, h2]
    simp
  · by_cases hcap : D.length ≤ cap
    · have hL : lastK cap D = D := by
        simp [lastK, Nat.sub_eq_zero_of_le hcap]
      rw [hL]
      by_cases hk : k ∈ D
      · obtain ⟨l1, l2, rfl⟩ := List.mem_iff_append.mp hk
        obtain ⟨h1, h2⟩ := not_mem_of_nodup_split l1 l2 k hD
        rw [filter_ne_split l1 l2 k h1 h2]
        have hlen : (l1 ++ l2 ++ [k]).length ≤ cap := by
          simp only [List.length_append, List.length_cons, List.length_nil] at hcap ⊢
          omega
        rw [if_neg (not_lt.mpr hlen), lastK, Nat.sub_eq_zero_of_le hlen, List.drop_zero]
      · rw [filter_ne_of_not_mem D k hk]
        by_cases hfull : (D ++ [k]).length > cap
        · rw [if_pos hfull, lastK, show (D ++ [k]).length - cap = 1 from by
            simp only [List.length_append, List.length_nil, List.length_cons]
              at hfull hcap ⊢
            omega, ← List.drop_one]
        · rw [if_neg hfull, lastK, Nat.sub_eq_zero_of_le (le_of_not_lt hfull),
            List.drop_zero]
    · have hgt : cap < D.length := lt_of_not_le hcap
      obtain ⟨P, L, hPL, hlenL⟩ :
          ∃ P L, D = P ++ L ∧ L.length = cap :=
        ⟨D.take (D.length - cap), D.drop (D.length - cap),
          (List.take_append_drop _ _).symm, by rw [List.length_drop]; omega⟩
      subst hPL
      have hL : lastK cap (P ++ L) = L := by
        rw [lastK, show (P ++ L).length - cap = P.length from by
          simp only [List.length_append, hlenL]
          omega, List.drop_left]
      have hdisj : P.Disjoint L := List.disjoint_of_nodup_append hD
      rw [hL]
      by_cases hk : k ∈ L
      · obtain ⟨l1, l2, rfl⟩ := List.mem_iff_append.mp hk
        obtain ⟨h1, h2⟩ := not_mem_of_nodup_split l1 l2 k hD.of_append_right
        have hkP : k ∉ P := fun hmem => hdisj hmem (by simp)
        rw [filter_ne_split l1 l2 k h1 h2]
        have hfD : (P ++ (l1 ++ k :: l2)).filter (fun x => x ≠ k) =
            P ++ (l1 ++ l2) := by
          rw [List.filter_append, filter_ne_of_not_mem P k hkP,
            filter_ne_split l1 l2 k h1 h2]
        rw [hfD]
        have hlenu : (l1 ++ l2 ++ [k]).length = cap := by
          simp only [List.length_append, List.length_cons, List.length_nil] at hlenL ⊢
          omega
        rw [if_neg (by rw [hlenu]; omega)]
        have hcount : (P ++ (l1 ++ l2) ++ [k]).length - cap = P.length := by
          simp only [List.length_append, List.length_cons, List.length_nil] at hlenL ⊢
          omega
        rw [lastK, hcount, List.append_assoc P (l1 ++ l2) [k], List.drop_left]
      · have hfL := filter_ne_of_not_mem L k hk
        rw [hfL]
        rw [if_pos (by simp [hlenL])]
        have hfD : (P ++ L).filter (fun x => x ≠ k) =
            P.filter (fun x => x ≠ k) ++ L := by
          rw [List.filter_append, hfL]
        rw [hfD]
        have hcount : (P.filter (fun x => x ≠ k) ++ L ++ [k]).length - cap =
            (P.filter (fun x => x ≠ k)).length + 1 := by
          simp only [List.length_append, List.length_cons, List.length_nil, hlenL]
          omega
        rw [lastK, hcount, List.append_assoc, List.drop_append, ← List.drop_one]

/-- Key-level view of one `LRUCache.put`. -/
theorem put_keys (c : LRUCache) (k : String) (v : CacheItem) :
    (c.put k v).cache.map Prod.fst =
      (if ((c.cache.map Prod.fst).filter (fun x => x ≠ k) ++ [k]).length > c.capacity
       then ((c.cache.map Prod.fst).filter (fun x => x ≠ k) ++ [k]).tail
       else (c.cache.map Prod.fst).filter (fun x => x ≠ k) ++ [k]) := by
  have hmap : ((c.cache.filter (fun p => p.1 ≠ k)) ++ [(k, v)]).map Prod.fst =
      (c.cache.map Prod.fst).filter (fun x => x ≠ k) ++ [k] := by
    rw [List.map_append, map_fst_filter_ne]
    rfl
  have hlen : ((c.cache.filter (fun p => p.1 ≠ k)) ++ [(k, v)]).length =
      ((c.cache.map Prod.fst).filter (fun x => x ≠ k) ++ [k]).length := by
    rw [← hmap, List.length_map]
  simp only [LRUCache.put]
  by_cases h : ((c.cache.filter (fun p => p.1 ≠ k)) ++ [(k, v)]).length > c.capacity
  · rw [if_pos h, if_pos (by rw [← hlen]; exact h), ← hmap, List.map_tail]
  · rw [if_neg h, if_neg (by rw [← hlen]; exact h), ← hmap]

/-- Folding puts never changes the capacity. -/
theorem foldl_put_capacity (c : LRUCache) (ops : List (String × CacheItem)) :
    (ops.foldl (fun c kv => c.put kv.1 kv.2) c).capacity = c.capacity := by
  induction ops generalizing c with
  | nil => rfl
  | cons kv rest ih =>
    rw [List.foldl_cons, ih]
    rfl

/-- The capacity of a put-sequence cache is the configured capacity. -/
theorem runPuts_capacity (cap : Nat) (ops : List (String × CacheItem)) :
    (runPuts cap ops).capacity = cap := by
  rw [runPuts, foldl_put_capacity]

/-- The LRU characterization: after any sequence of puts from empty, the
bucket holds exactly the `cap` most recently inserted-or-refreshed keys, in
order of their last insert-or-refresh. -/
theorem runPuts_keys (cap : Nat) (ops : List (String × CacheItem)) :
    (runPuts cap ops).cache.map Prod.fst = lastK cap (dedupLast (ops.map Prod.fst)) := by
  induction ops using List.reverseRecOn with
  | nil => simp [runPuts, dedupLast, lastK]
  | append_singleton ops kv ih =>
    have hstep : runPuts cap (ops ++ [kv]) = (runPuts cap ops).put kv.1 kv.2 := by
      rw [runPuts, List.foldl_append]
      rfl
    rw [hstep, put_keys, ih, runPuts_capacity, List.map_append]
    simp only [List.map_cons, List.map_nil]
    rw [dedupLast_append]
    exact lru_step cap (dedupLast (ops.map Prod.fst)) kv.1 (dedupLast_nodup _)

/-- A put sequence never exceeds the configured capacity. -/
theorem runPuts_size_le (cap : Nat) (ops : List (String × CacheItem)) :
    (runPuts cap ops).cache.length ≤ cap := by
  have h := runPuts_keys cap ops
  have hl : (runPuts cap ops).cache.length =
      ((runPuts cap ops).cache.map Prod.fst).length := (List.length_map _ _).symm
  rw [hl, h, lastK, List.length_drop]
  omega

/-- A put of a fresh key on a full bucket evicts exactly the front entry —
by `runPuts_keys` the least recently inserted-or-refreshed one. -/
theorem put_evicts_head (c : LRUCache) (k : String) (v : CacheItem)
    (hcap : 0 < c.capacity) (hfull : c.cache.length = c.capacity)
    (hfresh : ∀ q ∈ c.cache, q.1 ≠ k) :
    (c.put k v).cache.map Prod.fst = (c.cache.map Prod.fst).tail ++ [k] := by
  have hfilter : c.cache.filter (fun p => p.1 ≠ k) = c.cache := by
    rw [List.filter_eq_self]
    intro a ha
    simp only [ne_eq, decide_eq_true_eq]
    exact hfresh a ha
  simp only [LRUCache.put, hfilter]
  rw [if_pos (by simp [hfull])]
  cases hc : c.cache with
  | nil =>
    rw [hc] at hfull
    simp at hfull
    omega
  | cons q rest => simp

/-- Every entry of an updated association list is the new pair or an old
entry. -/
theorem mem_alSet {κ α : Type} [DecidableEq κ] (l : List (κ × α)) (k : κ) (v : α)
    (p : κ × α) (h : p ∈ alSet l k v) : p = (k, v) ∨ p ∈ l := by
  induction l with
  | nil =>
    simp only [alSet, List.mem_singleton] at h
    exact Or.inl h
  | cons q rest ih =>
    simp only [alSet] at h
    by_cases hq : q.1 = k
    · rw [if_pos hq] at h
      rcases List.mem_cons.mp h with h | h
      · exact Or.inl h
      · exact Or.inr (List.mem_cons_of_mem _ h)
    · rw [if_neg hq] at h
      rcases List.mem_cons.mp h with h | h
      · exact Or.inr (h ▸ List.mem_cons_self _ _)
      · rcases ih h with h2 | h2
        · exact Or.inl h2
        · exact Or.inr (List.mem_cons_of_mem _ h2)

/-- A successful lookup exhibits a member of the association list. -/
theorem alGet_mem {κ α : Type} [DecidableEq κ] (l : List (κ × α)) (k : κ) (v : α)
    (h : alGet l k = some v) : (k, v) ∈ l := by
  induction l with
  | nil => simp [alGet] at h
  | cons q rest ih =>
    rw [alGet] at h
    by_cases hq : q.1 = k
    · rw [if_pos hq] at h
      obtain ⟨q1, q2⟩ := q
      simp only at hq
      subst hq
      have hv : q2 = v := Option.some_injective _ h
      subst hv
      exact List.mem_cons_self _ _
    · rw [if_neg hq] at h
      exact List.mem_cons_of_mem _ (ih h)

/-- A put on a within-capacity bucket keeps it within capacity. -/
theorem put_length_le (c : LRUCache) (k : String) (v : CacheItem)
    (h : c.cache.length ≤ c.capacity) :
    (c.put k v).cache.length ≤ c.capacity := by
  simp only [LRUCache.put]
  by_cases hfull : (c.cache.filter (fun p => p.1 ≠ k) ++ [(k, v)]).length > c.capacity
  · rw [if_pos hfull, List.length_tail]
    have hle : (c.cache.filter (fun p => p.1 ≠ k)).length ≤ c.cache.length :=
      List.length_filter_le _ _
    simp only [List.length_append, List.length_cons, List.length_nil]
    omega
  · rw [if_neg hfull]
    omega

/-- `put` keeps the capacity field. -/
theorem put_capacity (c : LRUCache) (k : String) (v : CacheItem) :
    (c.put k v).capacity = c.capacity := rfl

/-- `HitokotoCache.add` preserves the bucket size invariant. -/
theorem add_preserves_sizeInv (c : HitokotoCache) (s : HitokotoSentence)
    (sentence_type : Option String) (now : Int) (h : sizeInv c) :
    sizeInv (c.add s sentence_type now) := by
  intro p hp
  simp only [HitokotoCache.add] at hp
  set tk := typeKeyForAdd sentence_type s with htk
  cases halg : alGet c.type_cache tk with
  | some b0 =>
    simp only [halg] at hp
    rcases mem_alSet _ _ _ _ hp with hnew | hold
    · subst hnew
      have hb0 : (tk, b0) ∈ c.type_cache := alGet_mem _ _ _ halg
      have hinv := h _ hb0
      simp only at hinv ⊢
      constructor
      · rw [put_capacity]
        exact hinv.1
      · exact hinv.1 ▸ put_length_le _ _ _ (hinv.1 ▸ hinv.2)
    · exact h _ hold
  | none =>
    simp only [halg] at hp
    rcases mem_alSet _ _ _ _ hp with hnew | hold
    · subst hnew
      have hget : alGet (alSet c.type_cache tk
          { capacity := c.max_size, cache := [] }) tk =
          some { capacity := c.max_size, cache := [] } := alGet_alSet_self _ _ _
      simp only [hget, Option.getD_some]
      exact ⟨rfl, put_length_le { capacity := c.max_size, cache := [] } _ _ (by simp)⟩
    · rcases mem_alSet _ _ _ _ hold with hnew2 | hold2
      · subst hnew2
        exact ⟨rfl, by simp⟩
      · exact h _ hold2

/-- `get_random` touches only the recently-used sets and the counters. -/
theorem get_random_preserves (c : HitokotoCache) (sentence_type : Option String)
    (now : Int) (pick : Nat) :
    ((c.get_random sentence_type now pick).2).type_cache = c.type_cache ∧
    ((c.get_random sentence_type now pick).2).max_size = c.max_size ∧
    ((c.get_random sentence_type now pick).2).ttl = c.ttl := by
  unfold HitokotoCache.get_random
  cases halg : alGet c.type_cache (typeKeyOrDefault sentence_type) with
  | none => simp [halg, HitokotoCache.bumpMiss]
  | some lru =>
    simp only [halg]
    split
    · simp [HitokotoCache.bumpMiss]
    · split
      · simp [HitokotoCache.bumpMiss]
      · simp

/-- `get_random` preserves the bucket size invariant. -/
theorem get_random_preserves_sizeInv (c : HitokotoCache) (sentence_type : Option String)
    (now : Int) (pick : Nat) (h : sizeInv c) :
    sizeInv ((c.get_random sentence_type now pick).2) := by
  obtain ⟨h1, h2, h3⟩ := get_random_preserves c sentence_type now pick
  intro p hp
  rw [h1] at hp
  rw [h2]
  exact h p hp

/-- The cleanup fold only shrinks buckets: every surviving bucket comes
from the accumulator or is a filtered version of an input bucket. -/
theorem cleanup_fold_mem (ttlv now : Int)
    (l : List (String × LRUCache)) (acc : List (String × LRUCache) × List (String × List String))
    (p : String × LRUCache)
    (hp : p ∈ (l.foldl (fun acc p =>
      let kept := p.2.cache.filter (fun q => !decide (now - q.2.timestamp ≥ ttlv))
      if kept.isEmpty then (acc.1, alErase acc.2 p.1)
      else (acc.1 ++ [(p.1, { p.2 with cache := kept })], acc.2)) acc).1) :
    p ∈ acc.1 ∨ ∃ q ∈ l, p.1 = q.1 ∧ p.2.capacity = q.2.capacity ∧
      p.2.cache.length ≤ q.2.cache.length := by
  induction l generalizing acc with
  | nil => exact Or.inl hp
  | cons q rest ih =>
    rw [List.foldl_cons] at hp
    by_cases hkept : (q.2.cache.filter (fun r => !decide (now - r.2.timestamp ≥ ttlv))).isEmpty
    · simp only [hkept, if_true] at hp
      rcases ih _ hp with h1 | h2
      · exact Or.inl h1
      · obtain ⟨r, hr, hrest⟩ := h2
        exact Or.inr ⟨r, List.mem_cons_of_mem _ hr, hrest⟩
    · simp only [hkept, Bool.false_eq_true, if_false] at hp
      rcases ih _ hp with h1 | h2
      · rcases List.mem_append.mp h1 with h3 | h3
        · exact Or.inl h3
        · rcases List.mem_singleton.mp h3 with rfl
          refine Or.inr ⟨q, List.mem_cons_self _ _, rfl, rfl, ?_⟩
          exact List.length_filter_le _ _
      · obtain ⟨r, hr, hrest⟩ := h2
        exact Or.inr ⟨r, List.mem_cons_of_mem _ hr, hrest⟩

/-- `cleanup` preserves the bucket size invariant. -/
theorem cleanup_preserves_sizeInv (c : HitokotoCache) (now : Int) (h : sizeInv c) :
    sizeInv (c.cleanup now) := by
  intro p hp
  simp only [HitokotoCache.cleanup] at hp
  rcases cleanup_fold_mem c.ttl now c.type_cache ([], c.recently_used) p hp with h1 | h2
  · simp at h1
  · obtain ⟨q, hq, hfst, hcapq, hlenq⟩ := h2
    have hinv := h q hq
    exact ⟨hcapq.trans hinv.1, hlenq.trans hinv.2⟩

/-- C1 amended: every bucket stays within capacity under add/put,
get_random and cleanup, and eviction is exact LRU — after any put sequence
the bucket holds the `capacity` most recently inserted-or-refreshed keys in
recency order, and a put of a fresh key on a full bucket evicts precisely
the front (least recently inserted-or-refreshed) entry.  Restoring a
snapshot, however, copies bucket contents verbatim without trimming, so a
bucket larger than capacity can result (see the counterexample). -/
theorem cache_capacity_invariant :
    (∀ (cap : Nat) (ops : List (String × CacheItem)),
      (runPuts cap ops).cache.length ≤ cap ∧
      (runPuts cap ops).cache.map Prod.fst =
        lastK cap (dedupLast (ops.map Prod.fst))) ∧
    (∀ (b : LRUCache) (k : String) (v : CacheItem),
      0 < b.capacity → b.cache.length = b.capacity → (∀ q ∈ b.cache, q.1 ≠ k) →
      (b.put k v).cache.map Prod.fst = (b.cache.map Prod.fst).tail ++ [k]) ∧
    (∀ (c : HitokotoCache) (s : HitokotoSentence) (st : Option String) (now : Int),
      sizeInv c → sizeInv (c.add s st now)) ∧
    (∀ (c : HitokotoCache) (st : Option String) (now : Int) (pick : Nat),
      sizeInv c → sizeInv ((c.get_random st now pick).2)) ∧
    (∀ (c : HitokotoCache) (now : Int), sizeInv c → sizeInv (c.cleanup now)) :=
  ⟨fun cap ops => ⟨runPuts_size_le cap ops, runPuts_keys cap ops⟩,
   put_evicts_head, add_preserves_sizeInv, get_random_preserves_sizeInv,
   cleanup_preserves_sizeInv⟩

/-- Witness for C1 at a concrete cache: a two-entry bucket of capacity 2
satisfies the invariant, and it still does after an add (which evicts), a
get_random, and a cleanup. -/
theorem cache_capacity_invariant_witness :
    (let s : HitokotoSentence :=
      { id := 9, uuid := "x", hitokoto := "h", type := "a", from_ := "f",
        from_who := none, creator := "c", creator_uid := 0, reviewer := 0,
        commit_from := "w", created_at := "t", length := 1 }
     let item : CacheItem := { data := s, timestamp := 0 }
     let c : HitokotoCache :=
      { max_size := 2, ttl := 100,
        type_cache := [("a", { capacity := 2, cache := [("1", item), ("2", item)] })],
        recently_used := [("a", [])],
        stats := { hits := 0, misses := 0, last_cleanup := 0 } }
     sizeInv c ∧ sizeInv (c.add s (some "a") 0) ∧
     sizeInv ((c.get_random (some "a") 0 0).2) ∧ sizeInv (c.cleanup 0)) := by
  intro s item c
  have hc : sizeInv c := by
    unfold sizeInv
    decide
  refine ⟨hc, ?_, ?_, ?_⟩
  · exact cache_capacity_invariant.2.2.1 c s (some "a") 0 hc
  · exact cache_capacity_invariant.2.2.2.1 c (some "a") 0 0 hc
  · exact cache_capacity_invariant.2.2.2.2 c 0 hc

/-- Counterexample for C1 as stated: restoring a snapshot whose bucket
holds three entries into a cache configured with capacity 2 yields a
three-entry bucket — `load_from_file` copies the saved bucket verbatim and
never trims it to `max_size`. -/
theorem load_from_file_oversize_counterexample :
    (let s : HitokotoSentence :=
      { id := 1, uuid := "x", hitokoto := "h", type := "a", from_ := "f",
        from_who := none, creator := "c", creator_uid := 0, reviewer := 0,
        commit_from := "w", created_at := "t", length := 1 }
     let item : CacheItem := { data := s, timestamp := 0 }
     let td : TypeData :=
      { cache := [("1", item), ("2", item), ("3", item)], recently_used := [] }
     let data : CacheSaveFile :=
      { type_cache := [("a", td)],
        stats := { hits := 0, misses := 0, last_cleanup := 0 } }
     let c : HitokotoCache := HitokotoCache.init 2 100
     c.max_size = 2 ∧
     (∃ b, alGet (c.load_from_file data).type_cache "a" = some b ∧
       b.cache.length = 3) ∧
     ¬ sizeInv (c.load_from_file data)) := by
  intro s item td data c
  have hbucket : (c.load_from_file data).type_cache =
      [("a", { capacity := 2, cache := td.cache })] := by
    decide
  refine ⟨by decide, ⟨{ capacity := 2, cache := td.cache }, by decide, by decide⟩, ?_⟩
  intro hinv
  have hmem : ("a", ({ capacity := 2, cache := td.cache } : LRUCache)) ∈
      (c.load_from_file data).type_cache := by
    rw [hbucket]
    exact List.mem_singleton_self _
  have h3 := hinv _ hmem
  have hms : (c.load_from_file data).max_size = 2 := by decide
  have hlen : (("a", ({ capacity := 2, cache := td.cache } : LRUCache))).2.cache.length = 3 := by
    decide
  rw [hms, hlen] at h3
  omega

/-- A non-empty type key passed to `get_random` is used as the bucket key. -/
theorem typeKeyOrDefault_some (t : String) (h : t ≠ "") :
    typeKeyOrDefault (some t) = t := by
  simp [typeKeyOrDefault, h]

/-- A nonempty list is not `isEmpty`. -/
theorem isEmpty_false_of_ne_nil {α : Type} (l : List α) (h : l ≠ []) :
    l.isEmpty = false := by
  cases l with
  | nil => exact absurd rfl h
  | cons a t => rfl

/-- When every item of a bucket is fresh, the valid list is the whole
bucket. -/
theorem validOf_all (ttlv now : Int) (b : LRUCache)
    (h : ∀ q ∈ b.cache, now - q.2.timestamp < ttlv) :
    validOf ttlv now b = b.cache.map Prod.snd := by
  rw [validOf, List.filter_eq_self]
  intro a ha
  obtain ⟨q, hq, rfl⟩ := List.mem_map.mp ha
  simpa using h q hq

/-- A recently-used set strictly smaller than the number of distinct item
ids cannot cover them all, so the unused pool is nonempty. -/
theorem unused_ne_nil (items : List CacheItem) (ru : List String)
    (hnodup : (items.map (fun q => toString q.data.id)).Nodup)
    (hlt : ru.length < items.length) :
    unusedOf ru items ≠ [] := by
  intro hempty
  have hall : ∀ item ∈ items, toString item.data.id ∈ ru := by
    intro item hitem
    by_contra hnot
    have hmem : item ∈ unusedOf ru items :=
      List.mem_filter.mpr ⟨hitem, by simpa using hnot⟩
    rw [hempty] at hmem
    simp at hmem
  have hsub : (items.map (fun q => toString q.data.id)).toFinset ⊆ ru.toFinset := by
    intro x hx
    rw [List.mem_toFinset] at hx ⊢
    obtain ⟨item, hitem, rfl⟩ := List.mem_map.mp hx
    exact hall item hitem
  have h1 : (items.map (fun q => toString q.data.id)).toFinset.card = items.length := by
    rw [List.toFinset_card_of_nodup hnodup, List.length_map]
  have h2 : ru.toFinset.card ≤ ru.length := ru.toFinset_card_le
  have h3 := Finset.card_le_card hsub
  omega

/-- When the recently-used set covers every item id, nothing is unused. -/
theorem unused_nil_of_full (items : List CacheItem) (ru : List String)
    (hfull : ∀ item ∈ items, toString item.data.id ∈ ru) :
    unusedOf ru items = [] := by
  rw [unusedOf, List.filter_eq_nil_iff]
  intro a ha
  simpa using hfull a ha

/-- Taking the last ten of a list of at most ten elements is the identity. -/
theorem lastK_of_le {α : Type} (l : List α) (h : l.length ≤ 10) :
    lastK 10 l = l := by
  rw [lastK, Nat.sub_eq_zero_of_le h, List.drop_zero]

/-- A duplicate-free sublist as long as its duplicate-free superlist covers
it. -/
theorem full_coverage (ids ru : List String) (hids : ids.Nodup) (hru : ru.Nodup)
    (hsub : ∀ x ∈ ru, x ∈ ids) (hlen : ids.length ≤ ru.length) :
    ∀ x ∈ ids, x ∈ ru := by
  have hsubF : ru.toFinset ⊆ ids.toFinset := by
    intro x hx
    rw [List.mem_toFinset] at hx ⊢
    exact hsub x hx
  have h1 : ru.toFinset.card = ru.length := List.toFinset_card_of_nodup hru
  have h2 : ids.toFinset.card = ids.length := List.toFinset_card_of_nodup hids
  have heq : ru.toFinset = ids.toFinset := by
    apply Finset.eq_of_subset_of_card_le hsubF
    omega
  intro x hx
  rw [← List.mem_toFinset, ← heq, List.mem_toFinset] at hx
  exact hx

/-- One `get_random` call on a bucket with more distinct valid entries than
recently-used ids: no reset happens, the call succeeds, the bucket map is
untouched, and exactly one fresh id is appended to the recently-used set
(the trim keeps everything while the set holds at most ten ids). -/
theorem get_random_step (c : HitokotoCache) (t : String) (b : LRUCache) (now : Int)
    (ru : List String) (p : Nat)
    (ht : t ≠ "")
    (hb : alGet c.type_cache t = some b)
    (hru : alGet c.recently_used t = some ru)
    (hvalid : ∀ q ∈ b.cache, now - q.2.timestamp < c.ttl)
    (hnodup : (b.cache.map (fun q => toString q.2.data.id)).Nodup)
    (hlt : ru.length < b.cache.length)
    (hsmall : b.cache.length ≤ 10) :
    c.wouldReset (some t) now = false ∧
    ((c.get_random (some t) now p).1).isSome = true ∧
    (c.get_random (some t) now p).2.type_cache = c.type_cache ∧
    (c.get_random (some t) now p).2.max_size = c.max_size ∧
    (c.get_random (some t) now p).2.ttl = c.ttl ∧
    ∃ sid, sid ∈ b.cache.map (fun q => toString q.2.data.id) ∧ sid ∉ ru ∧
      alGet (c.get_random (some t) now p).2.recently_used t = some (ru ++ [sid]) := by
  have htk := typeKeyOrDefault_some t ht
  have hitems : (b.cache.map Prod.snd).map (fun q => toString q.data.id) =
      b.cache.map (fun q => toString q.2.data.id) := by
    rw [List.map_map]
    rfl
  have hnodup2 : ((b.cache.map Prod.snd).map (fun q => toString q.data.id)).Nodup := by
    rw [hitems]
    exact hnodup
  have hvof : validOf c.ttl now b = b.cache.map Prod.snd := validOf_all _ _ _ hvalid
  have hlen2 : ru.length < (b.cache.map Prod.snd).length := by
    rw [List.length_map]
    exact hlt
  have hune : unusedOf ru (b.cache.map Prod.snd) ≠ [] :=
    unused_ne_nil _ _ hnodup2 hlen2
  have hvne : b.cache.map Prod.snd ≠ [] := by
    intro hnil
    rw [hnil] at hlen2
    simp at hlen2
  have hvempty : (b.cache.map Prod.snd).isEmpty = false := isEmpty_false_of_ne_nil _ hvne
  have huempty : (unusedOf ru (b.cache.map Prod.snd)).isEmpty = false :=
    isEmpty_false_of_ne_nil _ hune
  have hulen : 0 < (unusedOf ru (b.cache.map Prod.snd)).length :=
    List.length_pos.mpr hune
  have hplt : p % (unusedOf ru (b.cache.map Prod.snd)).length <
      (unusedOf ru (b.cache.map Prod.snd)).length := Nat.mod_lt _ hulen
  have hgetsome := List.getElem?_eq_getElem hplt
  set chosen := (unusedOf ru (b.cache.map Prod.snd))[p %
    (unusedOf ru (b.cache.map Prod.snd)).length] with hchosen
  have hchmem : chosen ∈ unusedOf ru (b.cache.map Prod.snd) := List.getElem_mem _
  have hchvalid : chosen ∈ b.cache.map Prod.snd := List.mem_of_mem_filter hchmem
  have hchfresh : toString chosen.data.id ∉ ru := by
    have := List.of_mem_filter hchmem
    simpa using this
  have hrulen : (ru ++ [toString chosen.data.id]).length ≤ 10 := by
    simp only [List.length_append, List.length_cons, List.length_nil]
    omega
  have hreset : c.wouldReset (some t) now = false := by
    rw [HitokotoCache.wouldReset]
    simp only [htk, hb, hvof, hru, Option.getD_some, huempty, Bool.and_false]
  have hmain : c.get_random (some t) now p =
      (some chosen.data,
        { c with
          recently_used := alSet c.recently_used t (ru ++ [toString chosen.data.id]),
          stats := { c.stats with hits := c.stats.hits + 1 } }) := by
    rw [HitokotoCache.get_random]
    simp only [htk, hb, hvof, hru, Option.getD_some, hvempty, Bool.false_eq_true,
      if_false, huempty, hgetsome, ← hchosen]
    rw [if_neg hchfresh]
    by_cases htrim : (ru ++ [toString chosen.data.id]).length > min (c.max_size / 2) 20
    · rw [if_pos htrim, lastK_of_le _ hrulen]
    · rw [if_neg htrim]
  refine ⟨hreset, ?_, ?_, ?_, ?_, toString chosen.data.id, ?_, hchfresh, ?_⟩
  · rw [hmain]
    rfl
  · rw [hmain]
  · rw [hmain]
  · rw [hmain]
  · rw [← hitems]
    exact List.mem_map.mpr ⟨chosen, hchvalid, rfl⟩
  · rw [hmain]
    exact alGet_alSet_self _ _ _

/-- One `get_random` call on a bucket whose valid ids are all recently
used: the reset branch fires and the call still succeeds. -/
theorem get_random_reset_step (c : HitokotoCache) (t : String) (b : LRUCache)
    (now : Int) (ru : List String) (p : Nat)
    (ht : t ≠ "")
    (hb : alGet c.type_cache t = some b)
    (hru : alGet c.recently_used t = some ru)
    (hvalid : ∀ q ∈ b.cache, now - q.2.timestamp < c.ttl)
    (hne : b.cache ≠ [])
    (hfull : ∀ q ∈ b.cache, toString q.2.data.id ∈ ru) :
    c.wouldReset (some t) now = true ∧
    ((c.get_random (some t) now p).1).isSome = true := by
  have htk := typeKeyOrDefault_some t ht
  have hvof : validOf c.ttl now b = b.cache.map Prod.snd := validOf_all _ _ _ hvalid
  have hfull2 : ∀ item ∈ b.cache.map Prod.snd, toString item.data.id ∈ ru := by
    intro item hitem
    obtain ⟨q, hq, rfl⟩ := List.mem_map.mp hitem
    exact hfull q hq
  have hunil : unusedOf ru (b.cache.map Prod.snd) = [] := unused_nil_of_full _ _ hfull2
  have hvne : b.cache.map Prod.snd ≠ [] := by
    intro hnil
    exact hne (List.map_eq_nil_iff.mp hnil)
  have hvempty : (b.cache.map Prod.snd).isEmpty = false := isEmpty_false_of_ne_nil _ hvne
  have hvlen : 0 < (b.cache.map Prod.snd).length := List.length_pos.mpr hvne
  have hplt : p % (b.cache.map Prod.snd).length < (b.cache.map Prod.snd).length :=
    Nat.mod_lt _ hvlen
  constructor
  · rw [HitokotoCache.wouldReset]
    simp only [htk, hb, hvof, hru, Option.getD_some, hunil, hvempty]
    rfl
  · rw [HitokotoCache.get_random]
    simp only [htk, hb, hvof, hru, Option.getD_some, hvempty, Bool.false_eq_true,
      if_false, hunil, List.isEmpty_nil, if_true, List.getElem?_eq_getElem hplt]
    rfl

/-- Running as many `get_random` calls as there is headroom in the
recently-used set: every call succeeds, no reset fires, and the set gains
exactly one fresh id per call. -/
theorem run_no_reset (t : String) (now : Int) (picks : List Nat) :
    ∀ (c : HitokotoCache) (b : LRUCache) (ru : List String) (succ res : Nat),
      t ≠ "" → alGet c.type_cache t = some b → alGet c.recently_used t = some ru →
      (∀ q ∈ b.cache, now - q.2.timestamp < c.ttl) →
      (b.cache.map (fun q => toString q.2.data.id)).Nodup →
      (∀ x ∈ ru, x ∈ b.cache.map (fun q => toString q.2.data.id)) → ru.Nodup →
      ru.length + picks.length ≤ b.cache.length → b.cache.length ≤ 10 →
      ∃ c2 ru2,
        picks.foldl (runGR (some t) now) (c, succ, res) =
          (c2, succ + picks.length, res) ∧
        alGet c2.type_cache t = some b ∧ alGet c2.recently_used t = some ru2 ∧
        c2.ttl = c.ttl ∧ c2.max_size = c.max_size ∧
        (∀ x ∈ ru2, x ∈ b.cache.map (fun q => toString q.2.data.id)) ∧ ru2.Nodup ∧
        ru2.length = ru.length + picks.length := by
  induction picks with
  | nil =>
    intro c b ru succ res ht hb hru hvalid hnodup hsub hrunodup hlen hsmall
    exact ⟨c, ru, by simp, hb, hru, rfl, rfl, hsub, hrunodup, by simp⟩
  | cons p rest ih =>
    intro c b ru succ res ht hb hru hvalid hnodup hsub hrunodup hlen hsmall
    have hlt : ru.length < b.cache.length := by
      simp only [List.length_cons] at hlen
      omega
    obtain ⟨hreset, hsucc, htc, hms, httl, sid, hsidmem, hsidnot, hru2⟩ :=
      get_random_step c t b now ru p ht hb hru hvalid hnodup hlt hsmall
    have hstep1 : runGR (some t) now (c, succ, res) p =
        ((c.get_random (some t) now p).2, succ + 1, res) := by
      rw [runGR]
      simp only [hreset, Bool.false_eq_true, if_false, hsucc, if_true]
    rw [List.foldl_cons, hstep1]
    have hb2 : alGet (c.get_random (some t) now p).2.type_cache t = some b := by
      rw [htc]
      exact hb
    have hvalid2 : ∀ q ∈ b.cache,
        now - q.2.timestamp < (c.get_random (some t) now p).2.ttl := by
      rw [httl]
      exact hvalid
    have hsub2 : ∀ x ∈ ru ++ [sid],
        x ∈ b.cache.map (fun q => toString q.2.data.id) := by
      intro x hx
      rcases List.mem_append.mp hx with hx | hx
      · exact hsub x hx
      · rw [List.mem_singleton.mp hx]
        exact hsidmem
    have hrunodup2 : (ru ++ [sid]).Nodup := by
      rw [List.nodup_append]
      exact ⟨hrunodup, List.nodup_singleton _, by
        intro x hx hx2
        rw [List.mem_singleton.mp hx2] at hx
        exact hsidnot hx⟩
    have hlen2 : (ru ++ [sid]).length + rest.length ≤ b.cache.length := by
      simp only [List.length_append, List.length_cons, List.length_nil] at hlen ⊢
      omega
    obtain ⟨c2, ru2, hfold, hb3, hru3, httl2, hms2, hsub3, hnodup3, hlen3⟩ :=
      ih (c.get_random (some t) now p).2 b (ru ++ [sid]) (succ + 1) res
        ht hb2 hru2 hvalid2 hnodup hsub2 hrunodup2 hlen2 hsmall
    refine ⟨c2, ru2, ?_, hb3, hru3, httl2.trans httl, hms2.trans hms, hsub3,
      hnodup3, ?_⟩
    · rw [hfold]
      have : succ + 1 + rest.length = succ + (p :: rest).length := by
        simp only [List.length_cons]
        omega
      rw [this]
    · rw [hlen3]
      simp only [List.length_append, List.length_cons, List.length_nil]
      omega

/-- C7 amended: on a bucket of n ≤ 10 distinct valid entries with an empty
recently-surfaced set, every sequence of n `get_random` calls succeeds with
no reset of the set (each call draws from the shrinking unused pool, and
the trim of the set is the identity while it holds at most ten ids); the
reset fires exactly when a call finds every valid entry in the set, which
first happens on call n + 1. -/
theorem get_random_reset_schedule :
    ∀ (c : HitokotoCache) (t : String) (b : LRUCache) (now : Int),
      t ≠ "" →
      alGet c.type_cache t = some b →
      alGet c.recently_used t = some [] →
      b.cache ≠ [] →
      b.cache.length ≤ 10 →
      (∀ q ∈ b.cache, now - q.2.timestamp < c.ttl) →
      (b.cache.map (fun q => toString q.2.data.id)).Nodup →
      (∀ picks : List Nat, picks.length = b.cache.length →
        (runGetRandoms c (some t) now picks).2.1 = picks.length ∧
        (runGetRandoms c (some t) now picks).2.2 = 0) ∧
      (∀ picks : List Nat, picks.length = b.cache.length → ∀ p : Nat,
        (runGetRandoms c (some t) now (picks ++ [p])).2.1 = picks.length + 1 ∧
        (runGetRandoms c (some t) now (picks ++ [p])).2.2 = 1) := by
  intro c t b now ht hb hru hne hsmall hvalid hnodup
  constructor
  · intro picks hplen
    obtain ⟨c2, ru2, hfold, -⟩ :=
      run_no_reset t now picks c b [] 0 0 ht hb hru hvalid hnodup
        (by simp) List.nodup_nil (by simp [hplen]) hsmall
    rw [runGetRandoms, hfold]
    exact ⟨by simp, rfl⟩
  · intro picks hplen p
    obtain ⟨c2, ru2, hfold, hb2, hru2, httl2, hms2, hsub2, hnodup2, hlen2⟩ :=
      run_no_reset t now picks c b [] 0 0 ht hb hru hvalid hnodup
        (by simp) List.nodup_nil (by simp [hplen]) hsmall
    have hcover : ∀ x ∈ b.cache.map (fun q => toString q.2.data.id), x ∈ ru2 := by
      apply full_coverage _ _ hnodup hnodup2 hsub2
      rw [List.length_map, hlen2, hplen]
      omega
    have hful : ∀ q ∈ b.cache, toString q.2.data.id ∈ ru2 := by
      intro q hq
      exact hcover _ (List.mem_map.mpr ⟨q, hq, rfl⟩)
    have hvalid2 : ∀ q ∈ b.cache, now - q.2.timestamp < c2.ttl := by
      rw [httl2]
      exact hvalid
    obtain ⟨hwr, hsome⟩ :=
      get_random_reset_step c2 t b now ru2 p ht hb2 hru2 hvalid2 hne hful
    rw [runGetRandoms, List.foldl_append, hfold]
    simp only [List.foldl_cons, List.foldl_nil]
    rw [runGR]
    simp only [hwr, if_true, hsome]
    exact ⟨by simp, by trivial⟩

/-- Witness for C7 at a concrete cache: a two-entry bucket with empty
recently-used set; two calls succeed with no reset, and a third call
resets the set once. -/
theorem get_random_reset_schedule_witness :
    (let mk : Int → HitokotoSentence := fun i =>
      { id := i, uuid := "x", hitokoto := "h", type := "a", from_ := "f",
        from_who := none, creator := "c", creator_uid := 0, reviewer := 0,
        commit_from := "w", created_at := "t", length := 1 }
     let b : LRUCache :=
      { capacity := 2, cache := [("1", { data := mk 1, timestamp := 0 }),
          ("2", { data := mk 2, timestamp := 0 })] }
     let c : HitokotoCache :=
      { max_size := 2, ttl := 100, type_cache := [("a", b)],
        recently_used := [("a", [])],
        stats := { hits := 0, misses := 0, last_cleanup := 0 } }
     (runGetRandoms c (some "a") 1 [0, 0]).2.1 = 2 ∧
     (runGetRandoms c (some "a") 1 [0, 0]).2.2 = 0 ∧
     (runGetRandoms c (some "a") 1 [0, 0, 0]).2.1 = 3 ∧
     (runGetRandoms c (some "a") 1 [0, 0, 0]).2.2 = 1) := by
  intro mk b c
  have h := get_random_reset_schedule c "a" b 1 (by decide) (by decide) (by decide)
    (by decide) (by decide) (by decide) (by decide)
  have h1 := h.1 [0, 0] (by decide)
  have h2 := h.2 [0, 0] (by decide) 0
  exact ⟨h1.1, h1.2, h2.1, h2.2⟩

/-- Counterexample for C7 as stated: a fully-populated bucket of capacity
4 (four distinct valid entries, empty recently-surfaced set) sustains four
successful `get_random` calls with zero resets of the recently-surfaced
set — the reset does not happen within `capacity` calls. -/
theorem get_random_no_reset_counterexample :
    (let mk : Int → HitokotoSentence := fun i =>
      { id := i, uuid := "x", hitokoto := "h", type := "a", from_ := "f",
        from_who := none, creator := "c", creator_uid := 0, reviewer := 0,
        commit_from := "w", created_at := "t", length := 1 }
     let b : LRUCache :=
      { capacity := 4, cache := [("1", { data := mk 1, timestamp := 0 }),
          ("2", { data := mk 2, timestamp := 0 }),
          ("3", { data := mk 3, timestamp := 0 }),
          ("4", { data := mk 4, timestamp := 0 })] }
     let c : HitokotoCache :=
      { max_size := 4, ttl := 100, type_cache := [("a", b)],
        recently_used := [("a", [])],
        stats := { hits := 0, misses := 0, last_cleanup := 0 } }
     c.max_size = 4 ∧ b.cache.length = 4 ∧
     (runGetRandoms c (some "a") 1 [0, 0, 0, 0]).2.1 = 4 ∧
     (runGetRandoms c (some "a") 1 [0, 0, 0, 0]).2.2 = 0) := by
  intro mk b c
  refine ⟨by decide, by decide, by decide, by decide⟩

end Spec2Proof
